import Mathlib

/-!
# Verified model of the Reaction plugin manifest builder

A shallow embedding of `.reaction/run/loadPlugins.mjs`: plugin discovery,
per-plugin artifact resolution, dependency installation, and generation of
the client and server import-manifest files.  Filesystem contents, the
disabled-plugins configuration and the success of external effects (writes,
`meteor npm i`) are modelled by a `World` record; the observable effects of a
run (log lines, install invocations, file contents, process exit) are
collected in a state `St`.  The JavaScript string primitives the loader uses
(`String.prototype.replace` with a string pattern, `String.prototype.split`,
Node's `path.relative`) are modelled over `List Char`.
-/

namespace Reaction

set_option maxRecDepth 16384

/-! ## Definitions: the embedded loader, its environment, and the
derived manifest data -/

/-- Characters of a string. -/
def chars (s : String) : List Char := s.data

/-- JS `s.split(pat)[0]` for a non-empty `pat`: the characters before the
first occurrence of `pat` (the whole list when `pat` does not occur). -/
def takeUntilPat (pat : List Char) : List Char → List Char
  | [] => []
  | c :: cs => if pat.isPrefixOf (c :: cs) then [] else c :: takeUntilPat pat cs

/-- JS `s.split(pat)[0]` as a `String` function. -/
def jsSplitFirst (pat s : String) : String :=
  String.mk (takeUntilPat (chars pat) (chars s))

/-- JS `s.replace(pat, rep)` with a *string* pattern: replaces only the
first occurrence of `pat`. -/
def jsReplaceFirstAux (pat rep : List Char) : List Char → List Char
  | [] => []
  | c :: cs =>
    if pat.isPrefixOf (c :: cs) then rep ++ (c :: cs).drop pat.length
    else c :: jsReplaceFirstAux pat rep cs

/-- JS `s.replace(pat, rep)` (string pattern, first occurrence only). -/
def jsReplaceFirst (pat rep s : String) : String :=
  String.mk (jsReplaceFirstAux (chars pat) (chars rep) (chars s))

/-- JS `s.replace(/\\/g, '/')`: every backslash becomes a forward slash. -/
def backslashToSlash (s : String) : String :=
  String.mk ((chars s).map (fun c => if c = '\\' then '/' else c))

/-- Whether `pat` occurs as a contiguous substring of `l`. -/
def hasSub (pat : List Char) : List Char → Bool
  | [] => pat.isEmpty
  | c :: cs => pat.isPrefixOf (c :: cs) || hasSub pat cs

/-- Split a character list into its non-empty `'/'`-separated segments;
`acc` is the (in-order) chunk read so far. -/
def segsAux (acc : List Char) : List Char → List (List Char)
  | [] => if acc.isEmpty then [] else [acc]
  | c :: cs =>
    if c = '/' then
      (if acc.isEmpty then segsAux [] cs else acc :: segsAux [] cs)
    else segsAux (acc ++ [c]) cs

/-- The non-empty `'/'`-separated segments of a character list. -/
def segs (cs : List Char) : List (List Char) := segsAux [] cs

/-- Join path segments with `'/'`. -/
def joinSegs : List (List Char) → List Char
  | [] => []
  | [x] => x
  | x :: y :: ys => x ++ '/' :: joinSegs (y :: ys)

/-- Length of the longest common prefix of two segment lists. -/
def commonPrefixLen : List (List Char) → List (List Char) → Nat
  | a :: as, b :: bs => if a = b then 1 + commonPrefixLen as bs else 0
  | _, _ => 0

/-- Models Node's `path.relative(from, to)` for the absolute paths the
loader passes it: drop the common leading segments, go up with `..` for each
remaining `from` segment, then down the remaining `to` segments. -/
def pathRelative (f t : String) : String :=
  let fs := segs (chars f)
  let ts := segs (chars t)
  let n := commonPrefixLen fs ts
  String.mk (joinSegs (List.replicate (fs.length - n) ['.', '.'] ++ ts.drop n))

/-- The environment a run observes.  `getDirectories` and `fsExists` model
the `getDirectories`/`exists` helpers from `./fs` (a directory listing and a
file-existence check); `disabledPlugins` models the `disabledPlugins` list of
`../pluginConfig` (the spec's Disabled-Plugins Set); `resolveDot` is the
value of `path.resolve('.')`; `installOk dir` tells whether
`cd ${dir} && meteor npm i` exits zero; `wfail file content` tells whether
the write that would leave `file` holding `content` throws. -/
structure World where
  getDirectories : String → List String
  fsExists : String → Bool
  disabledPlugins : List String
  resolveDot : String
  installOk : String → Bool
  wfail : String → String → Bool

/-- Observable state of a run: manifest files written so far (`none` =
untouched by this run), `Log.error` lines, `Log.info` lines, the
`(baseDirPath, plugin)` pairs for which the install command was invoked, and
the process exit code. -/
structure St where
  files : String → Option String
  errors : List String
  infos : List String
  installed : List (String × String)
  exitCode : Nat

/-- The state before a run: nothing written, logged, installed. -/
def St.init : St :=
  { files := fun _ => none, errors := [], infos := [], installed := [], exitCode := 0 }

/-- The generated-file warning header (`importFileMessage`). -/
def importFileMessage : String :=
  "\n/**\n * ***** DO NOT EDIT THIS FILE MANUALLY *****\n * This file is generated automatically by the Reaction\n * plugin loader and will be reset at each startup.\n */\n"

/-- `path.resolve('.').split('.meteor')[0]` — the application root. -/
def appRootOf (w : World) : String := jsSplitFirst ".meteor" w.resolveDot

/-- The `getImportPath` closure: `'/' + path.relative(appRoot, pluginFile)`
with every backslash then replaced by a forward slash. -/
def getImportPath (appRoot pluginFile : String) : String :=
  backslashToSlash ("/" ++ pathRelative appRoot pluginFile)

/-- The client import path pushed for plugin `p` under `b`:
`getImportPath(clientImport.replace('/index.js', ''))`. -/
def clientPathOf (w : World) (b p : String) : String :=
  getImportPath (appRootOf w) (jsReplaceFirst "/index.js" "" (b ++ p ++ "/client/index.js"))

/-- The server import path pushed for plugin `p` under `b`. -/
def serverPathOf (w : World) (b p : String) : String :=
  getImportPath (appRootOf w) (jsReplaceFirst "/index.js" "" (b ++ p ++ "/server/index.js"))

/-- The registry import path pushed for plugin `p` under `b` (no stripping:
`getImportPath(registryImport)`). -/
def registryPathOf (w : World) (b p : String) : String :=
  getImportPath (appRootOf w) (b ++ p ++ "/register.js")

/-- JS `d.charAt(0) === '.'` (false for the empty string, whose `charAt(0)`
is the empty string). -/
def startsWithDot (d : String) : Bool :=
  match chars d with
  | [] => false
  | c :: _ => c == '.'

/-- The plugin directories `getImportPaths` iterates over: the listing of
`baseDirPath` with names starting with `'.'` or listed in `disabledPlugins`
rejected. -/
def eligibleDirs (w : World) (b : String) : List String :=
  (w.getDirectories b).filter (fun d => !(startsWithDot d || w.disabledPlugins.contains d))

/-- The three path lists `getImportPaths` accumulates. -/
structure Paths where
  client : List String
  server : List String
  registry : List String

/-- The body of the `pluginDirs.forEach` loop of `getImportPaths`: push the
client/server/registry import paths whose artifacts exist, then run the
install command when `package.json` exists, exiting the process (modelled by
`Except.error`) when it fails. -/
def processPlugins (w : World) (b : String) : List String → St → Except St (St × Paths)
  | [], s => Except.ok (s, ⟨[], [], []⟩)
  | p :: rest, s =>
    let cPaths := if w.fsExists (b ++ p ++ "/client/index.js") then [clientPathOf w b p] else []
    let sPaths := if w.fsExists (b ++ p ++ "/server/index.js") then [serverPathOf w b p] else []
    let rPaths := if w.fsExists (b ++ p ++ "/register.js") then [registryPathOf w b p] else []
    let hasPkg := w.fsExists (b ++ p ++ "/package.json")
    let s1 := if hasPkg then
        { s with infos := s.infos ++ ["Installing dependencies for " ++ p ++ "...\n"],
                 installed := s.installed ++ [(b, p)] }
      else s
    if hasPkg && !w.installOk (b ++ p) then
      Except.error { s1 with
        errors := s1.errors ++ ["Failed to install npm dependencies for plugin: " ++ p],
        exitCode := 1 }
    else
      match processPlugins w b rest s1 with
      | Except.error st => Except.error st
      | Except.ok (s2, tail) =>
        Except.ok (s2, ⟨cPaths ++ tail.client, sPaths ++ tail.server, rPaths ++ tail.registry⟩)

/-- `getImportPaths(baseDirPath)`. -/
def getImportPaths (w : World) (b : String) (s : St) : Except St (St × Paths) :=
  processPlugins w b (eligibleDirs w b) s

/-- One `import '<path>';` line of a manifest file. -/
def importLine (p : String) : String := "import '" ++ p ++ "';\n"

/-- The import statements appended for a list of import paths. -/
def renderLines : List String → String
  | [] => ""
  | p :: ps => importLine p ++ renderLines ps

/-- The `imports.forEach` loop of `generateImportsFile`: append one import
line per path, logging and exiting on a write error.  Note the error message
interpolates the *import path*, exactly as the source does. -/
def appendImports (w : World) (file : String) : List String → St → Except St St
  | [], s => Except.ok s
  | p :: rest, s =>
    let newContent := ((s.files file).getD "") ++ importLine p
    if w.wfail file newContent then
      Except.error { s with
        errors := s.errors ++ ["Failed to write to plugins file at " ++ p],
        exitCode := 1 }
    else
      appendImports w file rest
        { s with files := fun f => if f = file then some newContent else s.files f }

/-- `generateImportsFile(file, imports)`: truncate, write the header, then
append one line per import; any write error logs and exits the process. -/
def generateImportsFile (w : World) (file : String) (imports : List String) (s : St) :
    Except St St :=
  if w.wfail file "" then
    Except.error { s with
      errors := s.errors ++ ["Failed to reset plugins file at " ++ file], exitCode := 1 }
  else
    let s1 := { s with files := fun f => if f = file then some "" else s.files f }
    if w.wfail file importFileMessage then
      Except.error { s1 with
        errors := s1.errors ++ ["Failed to reset plugins file at " ++ file], exitCode := 1 }
    else
      appendImports w file imports
        { s1 with files := fun f => if f = file then some importFileMessage else s1.files f }

/-- `pluginsPath` and the three tier roots. -/
def pluginsPath (w : World) : String := appRootOf w ++ "/imports/plugins/"

/-- `corePlugins`. -/
def corePluginsPath (w : World) : String := pluginsPath w ++ "core/"

/-- `includedPlugins`. -/
def includedPluginsPath (w : World) : String := pluginsPath w ++ "included/"

/-- `customPlugins`. -/
def customPluginsPath (w : World) : String := pluginsPath w ++ "custom/"

/-- Destination of the client manifest. -/
def clientFileOf (w : World) : String := appRootOf w ++ "/client/plugins.js"

/-- Destination of the server manifest. -/
def serverFileOf (w : World) : String := appRootOf w ++ "/server/plugins.js"

/-- `loadPlugins()`: gather the three tiers' paths, concatenate them in the
fixed order of the source, and write the two manifest files. -/
def loadPlugins (w : World) (s : St) : Except St St :=
  match getImportPaths w (corePluginsPath w) s with
  | Except.error st => Except.error st
  | Except.ok (s1, core) =>
    match getImportPaths w (includedPluginsPath w) s1 with
    | Except.error st => Except.error st
    | Except.ok (s2, included) =>
      match getImportPaths w (customPluginsPath w) s2 with
      | Except.error st => Except.error st
      | Except.ok (s3, custom) =>
        let clientImports := core.client ++ included.client ++ custom.client
        let serverImports := core.server ++ included.server ++ custom.server ++
          core.registry ++ included.registry ++ custom.registry
        match generateImportsFile w (clientFileOf w) clientImports s3 with
        | Except.error st => Except.error st
        | Except.ok s4 => generateImportsFile w (serverFileOf w) serverImports s4

/-- A full run of the loader from the pristine state. -/
def runLoadPlugins (w : World) : Except St St := loadPlugins w St.init

/-- The paths `processPlugins` would return on a successful run, computed
without effects. -/
def purePathsList (w : World) (b : String) : List String → Paths
  | [] => ⟨[], [], []⟩
  | p :: rest =>
    let t := purePathsList w b rest
    ⟨(if w.fsExists (b ++ p ++ "/client/index.js") then [clientPathOf w b p] else []) ++ t.client,
     (if w.fsExists (b ++ p ++ "/server/index.js") then [serverPathOf w b p] else []) ++ t.server,
     (if w.fsExists (b ++ p ++ "/register.js") then [registryPathOf w b p] else []) ++ t.registry⟩

/-- The paths one tier contributes. -/
def tierPaths (w : World) (b : String) : Paths := purePathsList w b (eligibleDirs w b)

/-- The client manifest entry list assembled by `loadPlugins`. -/
def clientManifest (w : World) : List String :=
  (tierPaths w (corePluginsPath w)).client ++ (tierPaths w (includedPluginsPath w)).client ++
    (tierPaths w (customPluginsPath w)).client

/-- The server manifest entry list assembled by `loadPlugins`. -/
def serverManifest (w : World) : List String :=
  (tierPaths w (corePluginsPath w)).server ++ (tierPaths w (includedPluginsPath w)).server ++
    (tierPaths w (customPluginsPath w)).server ++ (tierPaths w (corePluginsPath w)).registry ++
    (tierPaths w (includedPluginsPath w)).registry ++ (tierPaths w (customPluginsPath w)).registry

/-- Whether every eligible plugin of a tier that carries a `package.json`
has a succeeding install command. -/
def tierInstallsOk (w : World) (b : String) : List String → Bool
  | [] => true
  | p :: rest =>
    (!w.fsExists (b ++ p ++ "/package.json") || w.installOk (b ++ p)) && tierInstallsOk w b rest

/-- Whether the whole sequence of appends of `generateImportsFile` succeeds
when the file currently holds `cur`. -/
def appendsOk (w : World) (file : String) : String → List String → Bool
  | _, [] => true
  | cur, p :: rest =>
    !w.wfail file (cur ++ importLine p) && appendsOk w file (cur ++ importLine p) rest

/-- Whether `generateImportsFile` completes: the two reset writes and every
append succeed. -/
def genOk (w : World) (file : String) (imports : List String) : Bool :=
  !w.wfail file "" &&
    (!w.wfail file importFileMessage && appendsOk w file importFileMessage imports)

/-- Whether every install of the whole run succeeds. -/
def installsOk (w : World) : Bool :=
  tierInstallsOk w (corePluginsPath w) (eligibleDirs w (corePluginsPath w)) &&
    (tierInstallsOk w (includedPluginsPath w) (eligibleDirs w (includedPluginsPath w)) &&
      tierInstallsOk w (customPluginsPath w) (eligibleDirs w (customPluginsPath w)))

/-- The state a run ends in, whether it completed or exited. -/
def finalSt : Except St St → St
  | Except.ok st => st
  | Except.error st => st

/-- `w` with directory name `d` removed from every directory listing. -/
def World.removeDir (w : World) (d : String) : World :=
  { w with getDirectories := fun b => (w.getDirectories b).filter (fun x => !(x == d)) }

/-- A well-formed import path: it starts with a forward slash and contains
no backslash. -/
def importPathShaped (p : String) : Prop :=
  (chars p).head? = some '/' ∧ '\\' ∉ chars p

/-- The three plugin tiers. -/
inductive Tier
  | core
  | included
  | custom
deriving DecidableEq, Repr

/-- Tier precedence rank: core before included before custom. -/
def Tier.rank : Tier → Nat
  | .core => 0
  | .included => 1
  | .custom => 2

/-- The directory root of a tier. -/
def tierRoot (w : World) : Tier → String
  | .core => corePluginsPath w
  | .included => includedPluginsPath w
  | .custom => customPluginsPath w

/-- The client manifest with each entry tagged by the tier that contributed
it (the contributions are the tier segments of the concatenation in
`loadPlugins`). -/
def taggedClientManifest (w : World) : List (Tier × String) :=
  (tierPaths w (corePluginsPath w)).client.map (fun p => (Tier.core, p)) ++
    (tierPaths w (includedPluginsPath w)).client.map (fun p => (Tier.included, p)) ++
    (tierPaths w (customPluginsPath w)).client.map (fun p => (Tier.custom, p))

/-- The server-entry-point section of the server manifest, tier tagged. -/
def taggedServerEntries (w : World) : List (Tier × String) :=
  (tierPaths w (corePluginsPath w)).server.map (fun p => (Tier.core, p)) ++
    (tierPaths w (includedPluginsPath w)).server.map (fun p => (Tier.included, p)) ++
    (tierPaths w (customPluginsPath w)).server.map (fun p => (Tier.custom, p))

/-- The registration-file section of the server manifest, tier tagged. -/
def taggedServerRegistry (w : World) : List (Tier × String) :=
  (tierPaths w (corePluginsPath w)).registry.map (fun p => (Tier.core, p)) ++
    (tierPaths w (includedPluginsPath w)).registry.map (fun p => (Tier.included, p)) ++
    (tierPaths w (customPluginsPath w)).registry.map (fun p => (Tier.custom, p))

/-- The server manifest with each entry tagged by the contributing tier. -/
def taggedServerManifest (w : World) : List (Tier × String) :=
  taggedServerEntries w ++ taggedServerRegistry w

/-- A tagged manifest is tier ordered when tier rank never decreases along
the list. -/
def tierOrdered (l : List (Tier × String)) : Prop :=
  l.Pairwise (fun a b => a.1.rank ≤ b.1.rank)

/-- The kinds of entries of the server manifest: entry-point imports and
registration-file imports. -/
inductive SrvKind
  | entry
  | registration
deriving DecidableEq, Repr

/-- Entry-point imports precede registration imports. -/
def SrvKind.rank : SrvKind → Nat
  | .entry => 0
  | .registration => 1

/-- The server manifest with each entry tagged by kind and tier. -/
def kindedServerManifest (w : World) : List (SrvKind × Tier × String) :=
  (taggedServerEntries w).map (fun a => (SrvKind.entry, a)) ++
    (taggedServerRegistry w).map (fun a => (SrvKind.registration, a))

/-- Claim C1 as stated by the spec: in both generated manifests, every path
contributed by a lower-ranked tier appears before every path contributed by
a higher-ranked tier. -/
def tierPrecedenceClaim : Prop :=
  ∀ w : World, tierOrdered (taggedClientManifest w) ∧ tierOrdered (taggedServerManifest w)

/-- A world with one core plugin `q` carrying only a registration file and
one included plugin `p` carrying only a server entry point: the server
manifest then lists the included-tier path before the core-tier path. -/
def tierFlipWorld : World :=
  { getDirectories := fun b =>
      if b = "/app/imports/plugins/core/" then ["q"]
      else if b = "/app/imports/plugins/included/" then ["p"]
      else []
    fsExists := fun f =>
      f == "/app/imports/plugins/core/q/register.js" ||
        f == "/app/imports/plugins/included/p/server/index.js"
    disabledPlugins := []
    resolveDot := "/app"
    installOk := fun _ => true
    wfail := fun _ _ => false }

/-- A world with one hidden plugin, one visible plugin and one disabled
plugin under the core tier. -/
def hidWorld : World :=
  { getDirectories := fun b =>
      if b = "/app/imports/plugins/core/" then [".hid", "ok", "bad"] else []
    fsExists := fun f =>
      f == "/app/imports/plugins/core/ok/client/index.js" ||
        f == "/app/imports/plugins/core/.hid/client/index.js" ||
        f == "/app/imports/plugins/core/bad/server/index.js"
    disabledPlugins := ["bad"]
    resolveDot := "/app"
    installOk := fun _ => true
    wfail := fun _ _ => false }

/-- A world whose single core plugin `f` declares dependencies whose install
fails. -/
def failWorld5 : World :=
  { getDirectories := fun b => if b = "/app/imports/plugins/core/" then ["f"] else []
    fsExists := fun f => f == "/app/imports/plugins/core/f/package.json"
    disabledPlugins := []
    resolveDot := "/app"
    installOk := fun _ => false
    wfail := fun _ _ => false }

/-- A world whose single core plugin `foo` has a client entry point, and
whose client manifest file rejects any write longer than the header. -/
def failWorld6 : World :=
  { getDirectories := fun b => if b = "/app/imports/plugins/core/" then ["foo"] else []
    fsExists := fun f => f == "/app/imports/plugins/core/foo/client/index.js"
    disabledPlugins := []
    resolveDot := "/app"
    installOk := fun _ => true
    wfail := fun f c =>
      f == "/app/client/plugins.js" && decide (importFileMessage.length < c.length) }

/-- A world with no plugins and no failing effects. -/
def emptyWorld : World :=
  { getDirectories := fun _ => []
    fsExists := fun _ => false
    disabledPlugins := []
    resolveDot := "/app"
    installOk := fun _ => true
    wfail := fun _ _ => false }

/-- A world whose single included plugin has a server entry point, and whose
server manifest file rejects any write longer than the header. -/
def failWorld9 : World :=
  { getDirectories := fun b => if b = "/app/imports/plugins/included/" then ["p"] else []
    fsExists := fun f => f == "/app/imports/plugins/included/p/server/index.js"
    disabledPlugins := []
    resolveDot := "/app"
    installOk := fun _ => true
    wfail := fun f c =>
      f == "/app/server/plugins.js" && decide (importFileMessage.length < c.length) }

/-- A world whose single core plugin `g` declares dependencies and installs
successfully. -/
def instWorld10 : World :=
  { getDirectories := fun b => if b = "/app/imports/plugins/core/" then ["g"] else []
    fsExists := fun f => f == "/app/imports/plugins/core/g/package.json"
    disabledPlugins := []
    resolveDot := "/app"
    installOk := fun _ => true
    wfail := fun _ _ => false }

/-- Strip the last path component: drop the trailing run of non-separator
characters together with the separator before it. -/
def dropLastComponent (cs : List Char) : List Char :=
  (((cs.reverse).dropWhile (fun c => !(c == '/'))).drop 1).reverse

/-- The spec's formula for an entry-point import path: the artifact's path
relative to the application root, prefixed with a slash, every backslash
replaced by a forward slash, and the trailing entry filename stripped
afterwards so the path designates the containing directory. -/
def specEntryImportPath (root file : String) : String :=
  String.mk (dropLastComponent (chars (backslashToSlash ("/" ++ pathRelative root file))))

/-- The spec's formula for a registration-file import path: as for entry
points but WITHOUT stripping the filename. -/
def specFileImportPath (root file : String) : String :=
  backslashToSlash ("/" ++ pathRelative root file)

/-- The directory name of a tier. -/
def Tier.dirName : Tier → String
  | .core => "core"
  | .included => "included"
  | .custom => "custom"

/-- The five segments of an entry or registration path beneath the root. -/
def pluginSegs (tn p last : String) : List (List Char) :=
  [chars "imports", chars "plugins", chars tn, chars p, chars last]

/-! ## Theorems -/

/-- A successful pass over a tier returns exactly the purely recomputed
paths and leaves files, error log and exit code untouched. -/
theorem processPlugins_ok (w : World) (b : String) :
    ∀ (l : List String) (s s' : St) (ps : Paths),
      processPlugins w b l s = Except.ok (s', ps) →
      ps = purePathsList w b l ∧ s'.files = s.files ∧ s'.errors = s.errors ∧
        s'.exitCode = s.exitCode := by
  intro l
  induction l with
  | nil =>
    intro s s' ps h
    simp only [processPlugins] at h
    cases h
    exact ⟨rfl, rfl, rfl, rfl⟩
  | cons p rest ih =>
    intro s s' ps h
    simp only [processPlugins] at h
    split at h
    · exact absurd h (by simp)
    · split at h
      · exact absurd h (by simp)
      · rename_i heq
        cases h
        rcases ih _ _ _ heq with ⟨hps, hf, he, hx⟩
        refine ⟨by rw [hps]; rfl, ?_, ?_, ?_⟩
        · rw [hf]; split <;> rfl
        · rw [he]; split <;> rfl
        · rw [hx]; split <;> rfl

/-- An aborted pass over a tier leaves files untouched, sets exit code 1,
and has logged an install failure naming some plugin of the tier whose
install command indeed fails. -/
theorem processPlugins_error (w : World) (b : String) :
    ∀ (l : List String) (s st : St), processPlugins w b l s = Except.error st →
      st.files = s.files ∧ st.exitCode = 1 ∧
        ∃ p ∈ l, w.fsExists (b ++ p ++ "/package.json") = true ∧
          w.installOk (b ++ p) = false ∧
          ("Failed to install npm dependencies for plugin: " ++ p) ∈ st.errors := by
  intro l
  induction l with
  | nil =>
    intro s st h
    simp only [processPlugins] at h
    exact Except.noConfusion h
  | cons p rest ih =>
    intro s st h
    simp only [processPlugins] at h
    split at h
    · rename_i hc
      cases h
      rw [Bool.and_eq_true, Bool.not_eq_true'] at hc
      refine ⟨by split <;> rfl, rfl, p, List.mem_cons_self .., hc.1, hc.2, ?_⟩
      exact List.mem_append_right _ (List.mem_singleton.2 rfl)
    · split at h
      · rename_i heq
        cases h
        rcases ih _ _ heq with ⟨hf, hx, q, hq, hpkg, hok, hmem⟩
        exact ⟨by rw [hf]; split <;> rfl, hx, q, List.mem_cons_of_mem _ hq, hpkg, hok, hmem⟩
      · exact absurd h (by simp)

/-- When every install of the tier succeeds, the pass completes from any
starting state. -/
theorem processPlugins_ok_of_installsOk (w : World) (b : String) :
    ∀ (l : List String), tierInstallsOk w b l = true →
      ∀ s : St, ∃ s', processPlugins w b l s = Except.ok (s', purePathsList w b l) := by
  intro l
  induction l with
  | nil =>
    intro _ s
    exact ⟨s, rfl⟩
  | cons p rest ih =>
    intro hok s
    rw [tierInstallsOk, Bool.and_eq_true] at hok
    have hcond : (w.fsExists (b ++ p ++ "/package.json") && !w.installOk (b ++ p)) = false := by
      rcases Bool.or_eq_true_iff.1 hok.1 with h | h
      · rw [Bool.not_eq_true'] at h
        simp [h]
      · simp [h]
    rcases ih hok.2 (if w.fsExists (b ++ p ++ "/package.json") = true then
        { s with infos := s.infos ++ ["Installing dependencies for " ++ p ++ "...\n"],
                 installed := s.installed ++ [(b, p)] }
      else s) with ⟨s', hs'⟩
    refine ⟨s', ?_⟩
    simp only [processPlugins, hcond, Bool.false_eq_true, if_false, hs']
    rfl

/-- When some install of the tier fails, the pass aborts from any starting
state. -/
theorem processPlugins_error_of_installFail (w : World) (b : String) :
    ∀ (l : List String), tierInstallsOk w b l = false →
      ∀ s : St, ∃ st, processPlugins w b l s = Except.error st := by
  intro l
  induction l with
  | nil =>
    intro h
    exact absurd h (by simp [tierInstallsOk])
  | cons p rest ih =>
    intro hbad s
    rw [tierInstallsOk, Bool.and_eq_false_iff] at hbad
    by_cases hcond : (w.fsExists (b ++ p ++ "/package.json") && !w.installOk (b ++ p)) = true
    · refine ⟨{ (if w.fsExists (b ++ p ++ "/package.json") = true then
          { s with infos := s.infos ++ ["Installing dependencies for " ++ p ++ "...\n"],
                   installed := s.installed ++ [(b, p)] }
        else s) with
        errors := (if w.fsExists (b ++ p ++ "/package.json") = true then
          { s with infos := s.infos ++ ["Installing dependencies for " ++ p ++ "...\n"],
                   installed := s.installed ++ [(b, p)] }
        else s).errors ++ ["Failed to install npm dependencies for plugin: " ++ p],
        exitCode := 1 }, ?_⟩
      simp only [processPlugins, hcond, if_true]
    · have hrest : tierInstallsOk w b rest = false := by
        rcases hbad with h | h
        · exfalso
          apply hcond
          rw [Bool.or_eq_false_iff] at h
          have hp : w.fsExists (b ++ p ++ "/package.json") = true := by simpa using h.1
          simp [hp, h.2]
        · exact h
      rcases ih hrest (if w.fsExists (b ++ p ++ "/package.json") = true then
          { s with infos := s.infos ++ ["Installing dependencies for " ++ p ++ "...\n"],
                   installed := s.installed ++ [(b, p)] }
        else s) with ⟨st, hst⟩
      refine ⟨st, ?_⟩
      rw [Bool.not_eq_true] at hcond
      simp only [processPlugins, hcond, Bool.false_eq_true, if_false, hst]

/-- Every install recorded by a completed tier pass either predates the pass
or names an iterated-over plugin directory that carries a `package.json`. -/
theorem processPlugins_installed_ok (w : World) (b : String) :
    ∀ (l : List String) (s s' : St) (ps : Paths) (q : String × String),
      processPlugins w b l s = Except.ok (s', ps) → q ∈ s'.installed →
      q ∈ s.installed ∨
        (q.1 = b ∧ q.2 ∈ l ∧ w.fsExists (b ++ q.2 ++ "/package.json") = true) := by
  intro l
  induction l with
  | nil =>
    intro s s' ps q h hq
    simp only [processPlugins] at h
    cases h
    exact Or.inl hq
  | cons p rest ih =>
    intro s s' ps q h hq
    simp only [processPlugins] at h
    split at h
    · exact absurd h (by simp)
    · split at h
      · exact absurd h (by simp)
      · rename_i heq
        cases h
        rcases ih _ _ _ _ heq hq with hin | hnew
        · by_cases hpkg : w.fsExists (b ++ p ++ "/package.json") = true
          · rw [if_pos hpkg] at hin
            simp only [List.mem_append, List.mem_singleton] at hin
            rcases hin with hin | rfl
            · exact Or.inl hin
            · exact Or.inr ⟨rfl, List.mem_cons_self .., hpkg⟩
          · rw [if_neg hpkg] at hin
            exact Or.inl hin
        · exact Or.inr ⟨hnew.1, List.mem_cons_of_mem _ hnew.2.1, hnew.2.2⟩

/-- Every install recorded by an aborted tier pass either predates the pass
or names an iterated-over plugin directory that carries a `package.json`. -/
theorem processPlugins_installed_error (w : World) (b : String) :
    ∀ (l : List String) (s st : St) (q : String × String),
      processPlugins w b l s = Except.error st → q ∈ st.installed →
      q ∈ s.installed ∨
        (q.1 = b ∧ q.2 ∈ l ∧ w.fsExists (b ++ q.2 ++ "/package.json") = true) := by
  intro l
  induction l with
  | nil =>
    intro s st q h
    simp only [processPlugins] at h
    exact Except.noConfusion h
  | cons p rest ih =>
    intro s st q h hq
    simp only [processPlugins] at h
    split at h
    · rename_i hc
      cases h
      rw [Bool.and_eq_true] at hc
      rw [show (if w.fsExists (b ++ p ++ "/package.json") = true then
          { s with infos := s.infos ++ ["Installing dependencies for " ++ p ++ "...\n"],
                   installed := s.installed ++ [(b, p)] }
        else s).installed = s.installed ++ [(b, p)] from by rw [if_pos hc.1]] at hq
      simp only [List.mem_append, List.mem_singleton] at hq
      rcases hq with hin | rfl
      · exact Or.inl hin
      · exact Or.inr ⟨rfl, List.mem_cons_self .., hc.1⟩
    · split at h
      · rename_i heq
        cases h
        rcases ih _ _ _ heq hq with hin | hnew
        · by_cases hpkg : w.fsExists (b ++ p ++ "/package.json") = true
          · rw [if_pos hpkg] at hin
            simp only [List.mem_append, List.mem_singleton] at hin
            rcases hin with hin | rfl
            · exact Or.inl hin
            · exact Or.inr ⟨rfl, List.mem_cons_self .., hpkg⟩
          · rw [if_neg hpkg] at hin
            exact Or.inl hin
        · exact Or.inr ⟨hnew.1, List.mem_cons_of_mem _ hnew.2.1, hnew.2.2⟩
      · exact absurd h (by simp)

/-- A successful append loop appends exactly the rendered import lines to
the target file and touches nothing else. -/
theorem appendImports_ok (w : World) (file : String) :
    ∀ (l : List String) (cur : String) (s s' : St), s.files file = some cur →
      appendImports w file l s = Except.ok s' →
      s'.files file = some (cur ++ renderLines l) ∧
        (∀ g, g ≠ file → s'.files g = s.files g) ∧ s'.errors = s.errors ∧
        s'.installed = s.installed ∧ s'.exitCode = s.exitCode := by
  intro l
  induction l with
  | nil =>
    intro cur s s' hcur h
    simp only [appendImports] at h
    cases h
    refine ⟨?_, fun g _ => rfl, rfl, rfl, rfl⟩
    rw [hcur, renderLines, String.append_empty]
  | cons p rest ih =>
    intro cur s s' hcur h
    simp only [appendImports, hcur, Option.getD_some] at h
    split at h
    · exact Except.noConfusion h
    · have hmid : (fun f => if f = file then some (cur ++ importLine p) else s.files f) file =
          some (cur ++ importLine p) := by simp
      rcases ih _ _ _ hmid h with ⟨h1, h2, h3, h4, h5⟩
      refine ⟨?_, ?_, h3, h4, h5⟩
      · rw [h1, renderLines, ← String.append_assoc]
      · intro g hg
        rw [h2 g hg]
        simp [hg]

/-- An aborted append loop sets exit code 1, touches no other file, runs no
install, and has logged a write failure naming one of the import paths. -/
theorem appendImports_error (w : World) (file : String) :
    ∀ (l : List String) (s st : St), appendImports w file l s = Except.error st →
      (∀ g, g ≠ file → st.files g = s.files g) ∧ st.installed = s.installed ∧
        st.exitCode = 1 ∧
        ∃ p ∈ l, ("Failed to write to plugins file at " ++ p) ∈ st.errors := by
  intro l
  induction l with
  | nil =>
    intro s st h
    simp only [appendImports] at h
    exact Except.noConfusion h
  | cons p rest ih =>
    intro s st h
    simp only [appendImports] at h
    split at h
    · cases h
      refine ⟨fun g _ => rfl, rfl, rfl, p, List.mem_cons_self .., ?_⟩
      exact List.mem_append_right _ (List.mem_singleton.2 rfl)
    · rcases ih _ _ h with ⟨h1, h2, h3, q, hq, hmem⟩
      refine ⟨?_, h2, h3, q, List.mem_cons_of_mem _ hq, hmem⟩
      intro g hg
      rw [h1 g hg]
      simp [hg]

/-- When every append is accepted, the append loop completes from any state
whose file holds the matching current content. -/
theorem appendImports_ok_of_appendsOk (w : World) (file : String) :
    ∀ (l : List String) (cur : String), appendsOk w file cur l = true →
      ∀ s : St, s.files file = some cur → ∃ s', appendImports w file l s = Except.ok s' := by
  intro l
  induction l with
  | nil =>
    intro cur _ s _
    exact ⟨s, rfl⟩
  | cons p rest ih =>
    intro cur hok s hcur
    rw [appendsOk, Bool.and_eq_true, Bool.not_eq_true'] at hok
    rcases ih (cur ++ importLine p) hok.2
        { s with files := fun f => if f = file then some (cur ++ importLine p) else s.files f }
        (by simp) with ⟨s', hs'⟩
    refine ⟨s', ?_⟩
    simp only [appendImports, hcur, Option.getD_some, hok.1, Bool.false_eq_true, if_false]
    exact hs'

/-- Conversely, a completed append loop certifies that every append is
accepted. -/
theorem appendsOk_of_appendImports_ok (w : World) (file : String) :
    ∀ (l : List String) (cur : String) (s s' : St), s.files file = some cur →
      appendImports w file l s = Except.ok s' → appendsOk w file cur l = true := by
  intro l
  induction l with
  | nil =>
    intro cur s s' _ _
    rfl
  | cons p rest ih =>
    intro cur s s' hcur h
    simp only [appendImports, hcur, Option.getD_some] at h
    split at h
    · exact Except.noConfusion h
    · rename_i hw
      have hmid : (fun f => if f = file then some (cur ++ importLine p) else s.files f) file =
          some (cur ++ importLine p) := by simp
      rw [appendsOk, Bool.and_eq_true, Bool.not_eq_true']
      exact ⟨by rw [Bool.not_eq_true] at hw; exact hw, ih _ _ _ hmid h⟩

/-- When some append is rejected, the append loop aborts. -/
theorem appendImports_error_of_appendsFail (w : World) (file : String) :
    ∀ (l : List String) (cur : String), appendsOk w file cur l = false →
      ∀ s : St, s.files file = some cur → ∃ st, appendImports w file l s = Except.error st := by
  intro l
  induction l with
  | nil =>
    intro cur h
    exact absurd h (by simp [appendsOk])
  | cons p rest ih =>
    intro cur hbad s hcur
    rw [appendsOk, Bool.and_eq_false_iff] at hbad
    by_cases hw : w.wfail file (cur ++ importLine p) = true
    · refine ⟨{ s with
        errors := s.errors ++ ["Failed to write to plugins file at " ++ p], exitCode := 1 }, ?_⟩
      simp only [appendImports, hcur, Option.getD_some, hw, if_true]
    · have hrest : appendsOk w file (cur ++ importLine p) rest = false := by
        rcases hbad with h | h
        · exfalso
          apply hw
          simpa using h
        · exact h
      rcases ih (cur ++ importLine p) hrest
          { s with files := fun f => if f = file then some (cur ++ importLine p) else s.files f }
          (by simp) with ⟨st, hst⟩
      refine ⟨st, ?_⟩
      rw [Bool.not_eq_true] at hw
      simp only [appendImports, hcur, Option.getD_some, hw, Bool.false_eq_true, if_false]
      exact hst

/-- A successful `generateImportsFile` leaves the target holding exactly the
header followed by the rendered import lines, replacing any prior content,
and touches nothing else. -/
theorem generateImportsFile_ok (w : World) (file : String) (imports : List String)
    (s s' : St) (h : generateImportsFile w file imports s = Except.ok s') :
    s'.files file = some (importFileMessage ++ renderLines imports) ∧
      (∀ g, g ≠ file → s'.files g = s.files g) ∧ s'.errors = s.errors ∧
      s'.installed = s.installed ∧ s'.exitCode = s.exitCode := by
  simp only [generateImportsFile] at h
  split at h
  · exact Except.noConfusion h
  · split at h
    · exact Except.noConfusion h
    · rcases appendImports_ok w file imports importFileMessage _ _ (by simp) h with
        ⟨h1, h2, h3, h4, h5⟩
      refine ⟨h1, ?_, h3, h4, h5⟩
      intro g hg
      rw [h2 g hg]
      simp [hg]

/-- An aborted `generateImportsFile` sets exit code 1, touches no other
file, and runs no install. -/
theorem generateImportsFile_error (w : World) (file : String) (imports : List String)
    (s st : St) (h : generateImportsFile w file imports s = Except.error st) :
    (∀ g, g ≠ file → st.files g = s.files g) ∧ st.installed = s.installed ∧
      st.exitCode = 1 := by
  simp only [generateImportsFile] at h
  split at h
  · cases h
    exact ⟨fun g _ => rfl, rfl, rfl⟩
  · split at h
    · cases h
      exact ⟨fun g hg => by simp [hg], rfl, rfl⟩
    · rcases appendImports_error w file imports _ _ h with ⟨h1, h2, h3, _⟩
      refine ⟨?_, h2, h3⟩
      intro g hg
      rw [h1 g hg]
      simp [hg]

/-- When the resets and appends are accepted, `generateImportsFile`
completes from any state. -/
theorem generateImportsFile_ok_of_genOk (w : World) (file : String) (imports : List String)
    (hok : genOk w file imports = true) (s : St) :
    ∃ s', generateImportsFile w file imports s = Except.ok s' := by
  rw [genOk, Bool.and_eq_true, Bool.and_eq_true, Bool.not_eq_true', Bool.not_eq_true'] at hok
  rcases appendImports_ok_of_appendsOk w file imports importFileMessage hok.2.2
      { s with files := fun f => if f = file then some importFileMessage else
          (fun g => if g = file then some "" else s.files g) f }
      (by simp) with ⟨s', hs'⟩
  refine ⟨s', ?_⟩
  simp only [generateImportsFile, hok.1, hok.2.1, Bool.false_eq_true, if_false]
  exact hs'

/-- Conversely, a completed `generateImportsFile` certifies that the resets
and every append are accepted. -/
theorem genOk_of_generateImportsFile_ok (w : World) (file : String) (imports : List String)
    (s s' : St) (h : generateImportsFile w file imports s = Except.ok s') :
    genOk w file imports = true := by
  simp only [generateImportsFile] at h
  split at h
  · exact Except.noConfusion h
  · split at h
    · exact Except.noConfusion h
    · rename_i h1 h2
      rw [genOk, Bool.and_eq_true, Bool.and_eq_true, Bool.not_eq_true', Bool.not_eq_true']
      rw [Bool.not_eq_true] at h1 h2
      exact ⟨h1, h2, appendsOk_of_appendImports_ok w file imports importFileMessage _ _
        (by simp) h⟩

/-- When a reset or an append is rejected, `generateImportsFile` aborts from
any state. -/
theorem generateImportsFile_error_of_genFail (w : World) (file : String)
    (imports : List String) (hbad : genOk w file imports = false) (s : St) :
    ∃ st, generateImportsFile w file imports s = Except.error st := by
  rw [genOk, Bool.and_eq_false_iff, Bool.and_eq_false_iff] at hbad
  by_cases hr1 : w.wfail file "" = true
  · refine ⟨{ s with
      errors := s.errors ++ ["Failed to reset plugins file at " ++ file], exitCode := 1 }, ?_⟩
    simp only [generateImportsFile, hr1, if_true]
  · rw [Bool.not_eq_true] at hr1
    by_cases hr2 : w.wfail file importFileMessage = true
    · refine ⟨{ s with
        files := fun f => if f = file then some "" else s.files f,
        errors := s.errors ++ ["Failed to reset plugins file at " ++ file], exitCode := 1 }, ?_⟩
      simp only [generateImportsFile, hr1, Bool.false_eq_true, if_false, hr2, if_true]
    · rw [Bool.not_eq_true] at hr2
      have hfail : appendsOk w file importFileMessage imports = false := by
        rcases hbad with h | h | h
        · rw [hr1] at h
          exact absurd h (by simp)
        · rw [hr2] at h
          exact absurd h (by simp)
        · exact h
      rcases appendImports_error_of_appendsFail w file imports importFileMessage hfail
          { s with files := fun f => if f = file then some importFileMessage else
              (fun g => if g = file then some "" else s.files g) f }
          (by simp) with ⟨st, hst⟩
      refine ⟨st, ?_⟩
      simp only [generateImportsFile, hr1, Bool.false_eq_true, if_false, hr2]
      exact hst

/-- The two manifest destinations differ. -/
theorem clientFile_ne_serverFile (w : World) : clientFileOf w ≠ serverFileOf w := by
  intro h
  have hd := congrArg String.data h
  simp only [clientFileOf, serverFileOf, String.data_append] at hd
  exact absurd (List.append_cancel_left hd) (by decide)

/-- A successful run of `loadPlugins` leaves each manifest file holding
exactly the header followed by its manifest's rendered import lines, and
leaves every other file untouched. -/
theorem loadPlugins_ok (w : World) (s st : St) (h : loadPlugins w s = Except.ok st) :
    st.files (clientFileOf w) = some (importFileMessage ++ renderLines (clientManifest w)) ∧
      st.files (serverFileOf w) = some (importFileMessage ++ renderLines (serverManifest w)) ∧
      ∀ g, g ≠ clientFileOf w → g ≠ serverFileOf w → st.files g = s.files g := by
  simp only [loadPlugins, getImportPaths] at h
  split at h
  · exact Except.noConfusion h
  · rename_i o1 s1 core h1
    split at h
    · exact Except.noConfusion h
    · rename_i o2 s2 included h2
      split at h
      · exact Except.noConfusion h
      · rename_i o3 s3 custom h3
        split at h
        · exact Except.noConfusion h
        · rename_i o4 s4 h4
          rcases processPlugins_ok w _ _ _ _ _ h1 with ⟨hc, hf1, _, _⟩
          rcases processPlugins_ok w _ _ _ _ _ h2 with ⟨hi, hf2, _, _⟩
          rcases processPlugins_ok w _ _ _ _ _ h3 with ⟨hu, hf3, _, _⟩
          rcases generateImportsFile_ok w _ _ _ _ h4 with ⟨hg1, hg2, _, _, _⟩
          rcases generateImportsFile_ok w _ _ _ _ h with ⟨hh1, hh2, _, _, _⟩
          subst hc hi hu
          refine ⟨?_, ?_, ?_⟩
          · rw [hh2 _ (clientFile_ne_serverFile w), hg1]
            rfl
          · rw [hh1]
            rfl
          · intro g hgc hgs
            rw [hh2 g hgs, hg2 g hgc, hf3, hf2, hf1]

/-- An aborted run of `loadPlugins` either never touched the server
manifest file or had already completely written the client manifest file. -/
theorem loadPlugins_error_cases (w : World) (s st : St)
    (h : loadPlugins w s = Except.error st) :
    st.files (serverFileOf w) = s.files (serverFileOf w) ∨
      st.files (clientFileOf w) =
        some (importFileMessage ++ renderLines (clientManifest w)) := by
  simp only [loadPlugins, getImportPaths] at h
  split at h
  · cases h
    exact Or.inl (by rw [(processPlugins_error w _ _ _ _ (by assumption)).1])
  · rename_i o1 s1 core h1
    split at h
    · cases h
      rcases processPlugins_error w _ _ _ _ (by assumption) with ⟨hf, _, _⟩
      rcases processPlugins_ok w _ _ _ _ _ h1 with ⟨_, hf1, _, _⟩
      exact Or.inl (by rw [hf, hf1])
    · rename_i o2 s2 included h2
      split at h
      · cases h
        rcases processPlugins_error w _ _ _ _ (by assumption) with ⟨hf, _, _⟩
        rcases processPlugins_ok w _ _ _ _ _ h1 with ⟨_, hf1, _, _⟩
        rcases processPlugins_ok w _ _ _ _ _ h2 with ⟨_, hf2, _, _⟩
        exact Or.inl (by rw [hf, hf2, hf1])
      · rename_i o3 s3 custom h3
        split at h
        · cases h
          rcases generateImportsFile_error w _ _ _ _ (by assumption) with ⟨hf, _, _⟩
          rcases processPlugins_ok w _ _ _ _ _ h1 with ⟨hc, hf1, _, _⟩
          rcases processPlugins_ok w _ _ _ _ _ h2 with ⟨hi, hf2, _, _⟩
          rcases processPlugins_ok w _ _ _ _ _ h3 with ⟨hu, hf3, _, _⟩
          refine Or.inl ?_
          rw [hf _ (Ne.symm (clientFile_ne_serverFile w)), hf3, hf2, hf1]
        · rename_i o4 s4 h4
          rcases generateImportsFile_error w _ _ _ _ h with ⟨hf, _, _⟩
          rcases generateImportsFile_ok w _ _ _ _ h4 with ⟨hg1, _, _, _, _⟩
          rcases processPlugins_ok w _ _ _ _ _ h1 with ⟨hc, _, _, _⟩
          rcases processPlugins_ok w _ _ _ _ _ h2 with ⟨hi, _, _, _⟩
          rcases processPlugins_ok w _ _ _ _ _ h3 with ⟨hu, _, _, _⟩
          refine Or.inr ?_
          rw [hf _ (clientFile_ne_serverFile w), hg1, hc, hi, hu]
          rfl

/-- When every install and every write is accepted, `loadPlugins` completes
from any state. -/
theorem loadPlugins_ok_of_conditions (w : World) (hinst : installsOk w = true)
    (hgc : genOk w (clientFileOf w) (clientManifest w) = true)
    (hgs : genOk w (serverFileOf w) (serverManifest w) = true) (s : St) :
    ∃ st, loadPlugins w s = Except.ok st := by
  rw [installsOk, Bool.and_eq_true, Bool.and_eq_true] at hinst
  rcases processPlugins_ok_of_installsOk w _ _ hinst.1 s with ⟨s1, h1⟩
  rcases processPlugins_ok_of_installsOk w _ _ hinst.2.1 s1 with ⟨s2, h2⟩
  rcases processPlugins_ok_of_installsOk w _ _ hinst.2.2 s2 with ⟨s3, h3⟩
  rcases generateImportsFile_ok_of_genOk w _ _ hgc s3 with ⟨s4, h4⟩
  rcases generateImportsFile_ok_of_genOk w _ _ hgs s4 with ⟨s5, h5⟩
  refine ⟨s5, ?_⟩
  simp only [loadPlugins, getImportPaths, h1, h2, h3]
  exact h4 ▸ h5

/-- Conversely, a completed `loadPlugins` certifies that every install and
every write is accepted. -/
theorem conditions_of_loadPlugins_ok (w : World) (s st : St)
    (h : loadPlugins w s = Except.ok st) :
    installsOk w = true ∧ genOk w (clientFileOf w) (clientManifest w) = true ∧
      genOk w (serverFileOf w) (serverManifest w) = true := by
  simp only [loadPlugins, getImportPaths] at h
  split at h
  · exact Except.noConfusion h
  · rename_i o1 s1 core h1
    split at h
    · exact Except.noConfusion h
    · rename_i o2 s2 included h2
      split at h
      · exact Except.noConfusion h
      · rename_i o3 s3 custom h3
        split at h
        · exact Except.noConfusion h
        · rename_i o4 s4 h4
          rcases processPlugins_ok w _ _ _ _ _ h1 with ⟨hc, _, _, _⟩
          rcases processPlugins_ok w _ _ _ _ _ h2 with ⟨hi, _, _, _⟩
          rcases processPlugins_ok w _ _ _ _ _ h3 with ⟨hu, _, _, _⟩
          subst hc hi hu
          refine ⟨?_, genOk_of_generateImportsFile_ok w _ _ _ _ h4,
            genOk_of_generateImportsFile_ok w _ _ _ _ h⟩
          rw [installsOk, Bool.and_eq_true, Bool.and_eq_true]
          refine ⟨?_, ?_, ?_⟩ <;> by_contra hbad <;> rw [Bool.not_eq_true] at hbad
          · rcases processPlugins_error_of_installFail w _ _ hbad s with ⟨st', hst'⟩
            rw [h1] at hst'
            exact Except.noConfusion hst'
          · rcases processPlugins_error_of_installFail w _ _ hbad s1 with ⟨st', hst'⟩
            rw [h2] at hst'
            exact Except.noConfusion hst'
          · rcases processPlugins_error_of_installFail w _ _ hbad s2 with ⟨st', hst'⟩
            rw [h3] at hst'
            exact Except.noConfusion hst'

/-- When some install fails, a full run aborts with exit code 1 before
writing anything, after logging the offending plugin's name. -/
theorem runLoadPlugins_install_fatal (w : World) (hbad : installsOk w = false) :
    ∃ st, runLoadPlugins w = Except.error st ∧ st.exitCode = 1 ∧
      (∀ f, st.files f = none) ∧
      ∃ b, (b = corePluginsPath w ∨ b = includedPluginsPath w ∨ b = customPluginsPath w) ∧
        ∃ p ∈ eligibleDirs w b, w.fsExists (b ++ p ++ "/package.json") = true ∧
          w.installOk (b ++ p) = false ∧
          ("Failed to install npm dependencies for plugin: " ++ p) ∈ st.errors := by
  rw [installsOk, Bool.and_eq_false_iff, Bool.and_eq_false_iff] at hbad
  by_cases hcore : tierInstallsOk w (corePluginsPath w) (eligibleDirs w (corePluginsPath w)) = true
  · rcases processPlugins_ok_of_installsOk w _ _ hcore St.init with ⟨s1, h1⟩
    have hf1 := (processPlugins_ok w _ _ _ _ _ h1).2.1
    by_cases hincl : tierInstallsOk w (includedPluginsPath w)
        (eligibleDirs w (includedPluginsPath w)) = true
    · rcases processPlugins_ok_of_installsOk w _ _ hincl s1 with ⟨s2, h2⟩
      have hf2 := (processPlugins_ok w _ _ _ _ _ h2).2.1
      have hcust : tierInstallsOk w (customPluginsPath w)
          (eligibleDirs w (customPluginsPath w)) = false := by
        rcases hbad with h | h | h
        · rw [hcore] at h
          exact Bool.noConfusion h
        · rw [hincl] at h
          exact Bool.noConfusion h
        · exact h
      rcases processPlugins_error_of_installFail w _ _ hcust s2 with ⟨st, hst⟩
      rcases processPlugins_error w _ _ _ _ hst with ⟨hf, hx, p, hp, hpkg, hok, hmem⟩
      refine ⟨st, ?_, hx, ?_, _, Or.inr (Or.inr rfl), p, hp, hpkg, hok, hmem⟩
      · simp only [runLoadPlugins, loadPlugins, getImportPaths, h1, h2, hst]
      · intro f
        rw [hf, hf2, hf1]
        rfl
    · rw [Bool.not_eq_true] at hincl
      rcases processPlugins_error_of_installFail w _ _ hincl s1 with ⟨st, hst⟩
      rcases processPlugins_error w _ _ _ _ hst with ⟨hf, hx, p, hp, hpkg, hok, hmem⟩
      refine ⟨st, ?_, hx, ?_, _, Or.inr (Or.inl rfl), p, hp, hpkg, hok, hmem⟩
      · simp only [runLoadPlugins, loadPlugins, getImportPaths, h1, hst]
      · intro f
        rw [hf, hf1]
        rfl
  · rw [Bool.not_eq_true] at hcore
    rcases processPlugins_error_of_installFail w _ _ hcore St.init with ⟨st, hst⟩
    rcases processPlugins_error w _ _ _ _ hst with ⟨hf, hx, p, hp, hpkg, hok, hmem⟩
    refine ⟨st, ?_, hx, ?_, _, Or.inl rfl, p, hp, hpkg, hok, hmem⟩
    · simp only [runLoadPlugins, loadPlugins, getImportPaths, hst]
    · intro f
      rw [hf]
      rfl

/-- Every install recorded anywhere during `loadPlugins` names an eligible
plugin directory of one of the three tiers that carries a `package.json`. -/
theorem loadPlugins_installed (w : World) (s : St) :
    ∀ q : String × String, q ∈ (finalSt (loadPlugins w s)).installed →
      q ∈ s.installed ∨
        ∃ b, (b = corePluginsPath w ∨ b = includedPluginsPath w ∨ b = customPluginsPath w) ∧
          q.1 = b ∧ q.2 ∈ eligibleDirs w b ∧
          w.fsExists (b ++ q.2 ++ "/package.json") = true := by
  intro q hq
  simp only [loadPlugins, getImportPaths] at hq
  split at hq
  · rename_i st h1
    rcases processPlugins_installed_error w _ _ _ _ _ h1 hq with hin | hnew
    · exact Or.inl hin
    · exact Or.inr ⟨_, Or.inl rfl, hnew⟩
  · rename_i o1 s1 core h1
    split at hq
    · rename_i st h2
      rcases processPlugins_installed_error w _ _ _ _ _ h2 hq with hin | hnew
      · rcases processPlugins_installed_ok w _ _ _ _ _ _ h1 hin with hin' | hnew'
        · exact Or.inl hin'
        · exact Or.inr ⟨_, Or.inl rfl, hnew'⟩
      · exact Or.inr ⟨_, Or.inr (Or.inl rfl), hnew⟩
    · rename_i o2 s2 included h2
      split at hq
      · rename_i st h3
        rcases processPlugins_installed_error w _ _ _ _ _ h3 hq with hin | hnew
        · rcases processPlugins_installed_ok w _ _ _ _ _ _ h2 hin with hin' | hnew'
          · rcases processPlugins_installed_ok w _ _ _ _ _ _ h1 hin' with hin'' | hnew''
            · exact Or.inl hin''
            · exact Or.inr ⟨_, Or.inl rfl, hnew''⟩
          · exact Or.inr ⟨_, Or.inr (Or.inl rfl), hnew'⟩
        · exact Or.inr ⟨_, Or.inr (Or.inr rfl), hnew⟩
      · rename_i o3 s3 custom h3
        have hq3 : q ∈ s3.installed := by
          split at hq
          · rename_i st h4
            simp only [finalSt] at hq
            rwa [(generateImportsFile_error w _ _ _ _ h4).2.1] at hq
          · rename_i o4 s4 h4
            cases hgen : generateImportsFile w (serverFileOf w)
                (core.server ++ included.server ++ custom.server ++ core.registry ++
                  included.registry ++ custom.registry) s4 with
            | error st =>
              rw [hgen] at hq
              simp only [finalSt] at hq
              rw [(generateImportsFile_error w _ _ _ _ hgen).2.1] at hq
              rwa [(generateImportsFile_ok w _ _ _ _ h4).2.2.2.1] at hq
            | ok st =>
              rw [hgen] at hq
              simp only [finalSt] at hq
              rw [(generateImportsFile_ok w _ _ _ _ hgen).2.2.2.1] at hq
              rwa [(generateImportsFile_ok w _ _ _ _ h4).2.2.2.1] at hq
        rcases processPlugins_installed_ok w _ _ _ _ _ _ h3 hq3 with hin | hnew
        · rcases processPlugins_installed_ok w _ _ _ _ _ _ h2 hin with hin' | hnew'
          · rcases processPlugins_installed_ok w _ _ _ _ _ _ h1 hin' with hin'' | hnew''
            · exact Or.inl hin''
            · exact Or.inr ⟨_, Or.inl rfl, hnew''⟩
          · exact Or.inr ⟨_, Or.inr (Or.inl rfl), hnew'⟩
        · exact Or.inr ⟨_, Or.inr (Or.inr rfl), hnew⟩

/-- A tier listing containing a plugin with a `package.json` whose install
command fails does not pass the install check. -/
theorem tierInstallsOk_eq_false (w : World) (b : String) :
    ∀ (l : List String) (p : String), p ∈ l →
      w.fsExists (b ++ p ++ "/package.json") = true → w.installOk (b ++ p) = false →
      tierInstallsOk w b l = false := by
  intro l
  induction l with
  | nil =>
    intro p hp
    exact absurd hp (List.not_mem_nil p)
  | cons q rest ih =>
    intro p hp hpkg hok
    rcases List.mem_cons.1 hp with rfl | hp'
    · rw [tierInstallsOk, hpkg, hok]
      rfl
    · rw [tierInstallsOk, ih p hp' hpkg hok, Bool.and_false]

/-- The pure path computation never consults directory listings. -/
theorem purePathsList_removeDir (w : World) (d b : String) (l : List String) :
    purePathsList (w.removeDir d) b l = purePathsList w b l := by
  induction l with
  | nil => rfl
  | cons p rest ih =>
    simp only [purePathsList, ih]
    rfl

/-- Removing an ineligible directory name from the listings leaves the
eligible directories unchanged. -/
theorem eligibleDirs_removeDir (w : World) (d : String)
    (hd : (startsWithDot d || w.disabledPlugins.contains d) = true) (b : String) :
    eligibleDirs (w.removeDir d) b = eligibleDirs w b := by
  simp only [eligibleDirs, World.removeDir, List.filter_filter]
  apply List.filter_congr
  intro x _
  by_cases hx : (x == d) = true
  · rw [eq_of_beq hx, hd]
    simp
  · rw [Bool.not_eq_true] at hx
    rw [hx]
    simp

/-- Every path `getImportPath` produces starts with a forward slash. -/
theorem getImportPath_head (a f : String) :
    (chars (getImportPath a f)).head? = some '/' := by
  simp only [getImportPath, backslashToSlash, chars, String.data_append]
  rfl

/-- Every path `getImportPath` produces is free of backslashes. -/
theorem getImportPath_no_backslash (a f : String) : '\\' ∉ chars (getImportPath a f) := by
  intro hmem
  simp only [getImportPath, backslashToSlash, chars] at hmem
  rcases List.mem_map.1 hmem with ⟨c, _, hc⟩
  by_cases h : c = '\\'
  · rw [if_pos h] at hc
    exact absurd hc (by decide)
  · rw [if_neg h] at hc
    exact h hc

/-- Every path `getImportPath` produces is well formed. -/
theorem getImportPath_shaped (a f : String) : importPathShaped (getImportPath a f) :=
  ⟨getImportPath_head a f, getImportPath_no_backslash a f⟩

/-- Every path the pure recomputation gathers is well formed. -/
theorem purePathsList_shaped (w : World) (b : String) :
    ∀ (l : List String) (p : String),
      p ∈ (purePathsList w b l).client ∨ p ∈ (purePathsList w b l).server ∨
        p ∈ (purePathsList w b l).registry →
      importPathShaped p := by
  intro l
  induction l with
  | nil =>
    intro p hp
    rcases hp with hp | hp | hp <;> exact absurd hp (List.not_mem_nil p)
  | cons q rest ih =>
    intro p hp
    have hone : ∀ (x : String) (cond : Bool),
        p ∈ (if cond = true then [x] else []) → p = x := by
      intro x cond hmem
      cases cond with
      | true => exact List.mem_singleton.1 hmem
      | false => exact absurd hmem (List.not_mem_nil p)
    rcases hp with hp | hp | hp <;>
      rcases List.mem_append.1 hp with hh | ht
    · rw [hone _ _ hh]
      exact getImportPath_shaped _ _
    · exact ih p (Or.inl ht)
    · rw [hone _ _ hh]
      exact getImportPath_shaped _ _
    · exact ih p (Or.inr (Or.inl ht))
    · rw [hone _ _ hh]
      exact getImportPath_shaped _ _
    · exact ih p (Or.inr (Or.inr ht))

/-- Every entry of either manifest is well formed. -/
theorem manifest_shaped (w : World) (p : String)
    (hp : p ∈ clientManifest w ∨ p ∈ serverManifest w) : importPathShaped p := by
  rcases hp with hp | hp
  · simp only [clientManifest, List.mem_append] at hp
    rcases hp with (hp | hp) | hp <;>
      exact purePathsList_shaped w _ _ p (Or.inl hp)
  · simp only [serverManifest, List.mem_append] at hp
    rcases hp with ((((hp | hp) | hp) | hp) | hp) | hp
    · exact purePathsList_shaped w _ _ p (Or.inr (Or.inl hp))
    · exact purePathsList_shaped w _ _ p (Or.inr (Or.inl hp))
    · exact purePathsList_shaped w _ _ p (Or.inr (Or.inl hp))
    · exact purePathsList_shaped w _ _ p (Or.inr (Or.inr hp))
    · exact purePathsList_shaped w _ _ p (Or.inr (Or.inr hp))
    · exact purePathsList_shaped w _ _ p (Or.inr (Or.inr hp))

/-- Dropping the tags of the tagged client manifest yields the client
manifest. -/
theorem taggedClientManifest_map_snd (w : World) :
    (taggedClientManifest w).map Prod.snd = clientManifest w := by
  simp [taggedClientManifest, clientManifest]

/-- Dropping the tags of the tagged server manifest yields the server
manifest. -/
theorem taggedServerManifest_map_snd (w : World) :
    (taggedServerManifest w).map Prod.snd = serverManifest w := by
  simp [taggedServerManifest, taggedServerEntries, taggedServerRegistry, serverManifest]

/-- Dropping the tags of the kinded server manifest yields the server
manifest. -/
theorem kindedServerManifest_map (w : World) :
    (kindedServerManifest w).map (fun x => x.2.2) = serverManifest w := by
  simp only [kindedServerManifest, List.map_append, List.map_map]
  have h := taggedServerManifest_map_snd w
  simp only [taggedServerManifest, List.map_append] at h
  exact h

/-- Tagging with a fixed tier yields a tier-ordered list. -/
theorem tierOrdered_map_const (t : Tier) (l : List String) :
    tierOrdered (l.map fun p => (t, p)) := by
  induction l with
  | nil => exact List.Pairwise.nil
  | cons a l ih =>
    refine List.Pairwise.cons ?_ ih
    intro b hb
    rcases List.mem_map.1 hb with ⟨p, _, rfl⟩
    exact le_refl _

/-- Every element of a constant-tier tagged list carries that tier. -/
theorem fst_of_mem_map_const {t : Tier} {l : List String} {x : Tier × String}
    (hx : x ∈ l.map fun p => (t, p)) : x.1 = t := by
  rcases List.mem_map.1 hx with ⟨p, _, rfl⟩
  rfl

/-- Concatenating a tier-ordered list whose tiers all rank below those of a
second tier-ordered list is tier ordered. -/
theorem tierOrdered_append {l₁ l₂ : List (Tier × String)} (h₁ : tierOrdered l₁)
    (h₂ : tierOrdered l₂) (h : ∀ a ∈ l₁, ∀ b ∈ l₂, a.1.rank ≤ b.1.rank) :
    tierOrdered (l₁ ++ l₂) :=
  List.pairwise_append.mpr ⟨h₁, h₂, h⟩

/-- A three-tier concatenation tagged core, included, custom in that order
is tier ordered. -/
theorem tierOrdered_three (a b c : List String) :
    tierOrdered ((a.map fun p => (Tier.core, p)) ++ ((b.map fun p => (Tier.included, p)) ++
      (c.map fun p => (Tier.custom, p)))) := by
  refine tierOrdered_append (tierOrdered_map_const _ _)
    (tierOrdered_append (tierOrdered_map_const _ _) (tierOrdered_map_const _ _) ?_) ?_
  · intro x hx y hy
    rw [fst_of_mem_map_const hx, fst_of_mem_map_const hy]
    decide
  · intro x hx y hy
    rw [fst_of_mem_map_const hx]
    rcases List.mem_append.1 hy with h | h
    · rw [fst_of_mem_map_const h]; decide
    · rw [fst_of_mem_map_const h]; decide

/-- Every element of a constant-kind tagged list carries that kind. -/
theorem kind_of_mem_map_const {k : SrvKind} {l : List (Tier × String)}
    {x : SrvKind × Tier × String} (hx : x ∈ l.map fun a => (k, a)) : x.1 = k := by
  rcases List.mem_map.1 hx with ⟨p, _, rfl⟩
  rfl

/-- Tagging with a fixed kind yields a kind-rank-ordered list. -/
theorem kindOrdered_map_const (k : SrvKind) (l : List (Tier × String)) :
    (l.map fun a => (k, a)).Pairwise
      (fun x y : SrvKind × Tier × String => x.1.rank ≤ y.1.rank) := by
  induction l with
  | nil => exact List.Pairwise.nil
  | cons a l ih =>
    refine List.Pairwise.cons ?_ ih
    intro b hb
    rw [kind_of_mem_map_const hb]

/-- C1 (counterexample): tier precedence fails for the server manifest,
because `loadPlugins` concatenates all tiers' server entry points before any
tier's registration files: with a core plugin holding only a registration
file and an included plugin holding only a server entry point, the server
manifest lists the included-tier path first. -/
theorem C1_tier_precedence_counterexample : ¬ tierPrecedenceClaim := by
  intro h
  have h2 := (h tierFlipWorld).2
  have he : taggedServerManifest tierFlipWorld =
      [(Tier.included, "/imports/plugins/included/p/server"),
        (Tier.core, "/imports/plugins/core/q/register.js")] := by rfl
  rw [he] at h2
  have h3 := (List.pairwise_cons.1 h2).1 _ (List.mem_singleton.2 rfl)
  simp [Tier.rank] at h3

/-- C1 (amended): the client manifest is tier ordered, and within the server
manifest the entry-point section and the registration section are each tier
ordered (registration paths of every tier follow all entry-point paths, as
claim C2 states). -/
theorem C1_tier_precedence_amended (w : World) :
    tierOrdered (taggedClientManifest w) ∧ tierOrdered (taggedServerEntries w) ∧
      tierOrdered (taggedServerRegistry w) := by
  refine ⟨?_, ?_, ?_⟩ <;>
    simp only [taggedClientManifest, taggedServerEntries, taggedServerRegistry,
      List.append_assoc] <;>
    exact tierOrdered_three _ _ _

/-- C2: in the server manifest every server entry-point import path, from
any tier, appears before every registration-file import path, and the
registration section is itself ordered core, included, custom. -/
theorem C2_entries_before_registrations (w : World) :
    (kindedServerManifest w).Pairwise
        (fun a b : SrvKind × Tier × String => a.1.rank ≤ b.1.rank) ∧
      tierOrdered (taggedServerRegistry w) := by
  constructor
  · refine List.pairwise_append.mpr
      ⟨kindOrdered_map_const _ _, kindOrdered_map_const _ _, ?_⟩
    intro a ha b hb
    rw [kind_of_mem_map_const ha, kind_of_mem_map_const hb]
    decide
  · show tierOrdered (_ ++ _ ++ _)
    rw [List.append_assoc]
    exact tierOrdered_three _ _ _

/-- Removing a directory from the listings does not move the tier roots. -/
theorem corePluginsPath_removeDir (w : World) (d : String) :
    corePluginsPath (w.removeDir d) = corePluginsPath w := rfl

/-- Removing a directory from the listings does not move the tier roots. -/
theorem includedPluginsPath_removeDir (w : World) (d : String) :
    includedPluginsPath (w.removeDir d) = includedPluginsPath w := rfl

/-- Removing a directory from the listings does not move the tier roots. -/
theorem customPluginsPath_removeDir (w : World) (d : String) :
    customPluginsPath (w.removeDir d) = customPluginsPath w := rfl

/-- C3: a plugin directory whose name starts with `'.'` or is listed in the
Disabled-Plugins Set contributes nothing: removing it from every directory
listing leaves both manifests unchanged. -/
theorem C3_excluded_dirs_contribute_nothing (w : World) (d : String)
    (hd : (startsWithDot d || w.disabledPlugins.contains d) = true) :
    clientManifest (w.removeDir d) = clientManifest w ∧
      serverManifest (w.removeDir d) = serverManifest w := by
  constructor
  · simp only [clientManifest, tierPaths, corePluginsPath_removeDir,
      includedPluginsPath_removeDir, customPluginsPath_removeDir,
      eligibleDirs_removeDir w d hd, purePathsList_removeDir]
  · simp only [serverManifest, tierPaths, corePluginsPath_removeDir,
      includedPluginsPath_removeDir, customPluginsPath_removeDir,
      eligibleDirs_removeDir w d hd, purePathsList_removeDir]

/-- C3 witness: the hidden directory `.hid` of `hidWorld` is ineligible and
removing it changes neither manifest. -/
theorem C3_witness :
    ((startsWithDot ".hid" || hidWorld.disabledPlugins.contains ".hid") = true) ∧
      clientManifest (hidWorld.removeDir ".hid") = clientManifest hidWorld ∧
      serverManifest (hidWorld.removeDir ".hid") = serverManifest hidWorld :=
  ⟨rfl, C3_excluded_dirs_contribute_nothing hidWorld ".hid" rfl⟩

/-- C5: if any one eligible plugin's install command fails, the whole run
aborts with exit code 1, neither manifest file has been written, and an
error naming a plugin whose install indeed fails has been logged. -/
theorem C5_install_failure_fatal (w : World) (b p : String)
    (hb : b = corePluginsPath w ∨ b = includedPluginsPath w ∨ b = customPluginsPath w)
    (hp : p ∈ eligibleDirs w b)
    (hpkg : w.fsExists (b ++ p ++ "/package.json") = true)
    (hfail : w.installOk (b ++ p) = false) :
    ∃ st, runLoadPlugins w = Except.error st ∧ st.exitCode = 1 ∧
      (∀ f, st.files f = none) ∧
      ∃ b' q,
        (b' = corePluginsPath w ∨ b' = includedPluginsPath w ∨ b' = customPluginsPath w) ∧
        q ∈ eligibleDirs w b' ∧ w.fsExists (b' ++ q ++ "/package.json") = true ∧
        w.installOk (b' ++ q) = false ∧
        ("Failed to install npm dependencies for plugin: " ++ q) ∈ st.errors := by
  have hbad : installsOk w = false := by
    have ht := tierInstallsOk_eq_false w b _ p hp hpkg hfail
    rw [installsOk]
    rcases hb with rfl | rfl | rfl
    · rw [ht]
      rfl
    · rw [ht]
      simp
    · rw [ht]
      simp
  rcases runLoadPlugins_install_fatal w hbad with ⟨st, h1, h2, h3, b', hb', q, hq, hqp, hqo, hqm⟩
  exact ⟨st, h1, h2, h3, b', q, hb', hq, hqp, hqo, hqm⟩

/-- C5 witness: in `failWorld5` the failing install aborts the run before
any write. -/
theorem C5_witness :
    ("f" ∈ eligibleDirs failWorld5 (corePluginsPath failWorld5)) ∧
      ∃ st, runLoadPlugins failWorld5 = Except.error st ∧ st.exitCode = 1 ∧
        (∀ f, st.files f = none) ∧
        ∃ b' q,
          (b' = corePluginsPath failWorld5 ∨ b' = includedPluginsPath failWorld5 ∨
            b' = customPluginsPath failWorld5) ∧
          q ∈ eligibleDirs failWorld5 b' ∧
          failWorld5.fsExists (b' ++ q ++ "/package.json") = true ∧
          failWorld5.installOk (b' ++ q) = false ∧
          ("Failed to install npm dependencies for plugin: " ++ q) ∈ st.errors :=
  ⟨by decide, C5_install_failure_fatal failWorld5 (corePluginsPath failWorld5) "f"
    (Or.inl rfl) (by decide) rfl rfl⟩

/-- C6: a failing append is indeed fatal with exit code 1, but the logged
error interpolates the rejected *import path* — the message does not contain
the destination file's path at all, contradicting the claim that every write
error identifies the destination file. -/
theorem C6_append_error_names_import_path :
    runLoadPlugins failWorld6 = Except.error (finalSt (runLoadPlugins failWorld6)) ∧
      (finalSt (runLoadPlugins failWorld6)).exitCode = 1 ∧
      (finalSt (runLoadPlugins failWorld6)).errors =
        ["Failed to write to plugins file at /imports/plugins/core/foo/client"] ∧
      hasSub (chars (clientFileOf failWorld6))
        (chars "Failed to write to plugins file at /imports/plugins/core/foo/client") =
          false :=
  ⟨rfl, rfl, rfl, by decide⟩

/-- C7: each manifest file of a successful run holds exactly the warning
header followed by one import line per manifest entry, in manifest order,
replacing any prior content, and every entry starts with `'/'` and contains
no backslash. -/
theorem C7_emission_format (w : World) (s st : St) (h : loadPlugins w s = Except.ok st) :
    st.files (clientFileOf w) = some (importFileMessage ++ renderLines (clientManifest w)) ∧
      st.files (serverFileOf w) =
        some (importFileMessage ++ renderLines (serverManifest w)) ∧
      ∀ p, (p ∈ clientManifest w ∨ p ∈ serverManifest w) → importPathShaped p := by
  rcases loadPlugins_ok w s st h with ⟨h1, h2, _⟩
  exact ⟨h1, h2, fun p hp => manifest_shaped w p hp⟩

/-- C7 witness: the empty world's run succeeds and writes the header-only
manifests. -/
theorem C7_witness :
    loadPlugins emptyWorld St.init = Except.ok (finalSt (runLoadPlugins emptyWorld)) ∧
      (finalSt (runLoadPlugins emptyWorld)).files (clientFileOf emptyWorld) =
        some (importFileMessage ++ renderLines (clientManifest emptyWorld)) :=
  ⟨rfl, (C7_emission_format emptyWorld St.init (finalSt (runLoadPlugins emptyWorld)) rfl).1⟩

/-- C8: a second run over an unchanged world, starting from the state the
first successful run left behind, succeeds and leaves both manifest files
byte-identical to the first run's output. -/
theorem C8_idempotent (w : World) (st1 : St) (h : runLoadPlugins w = Except.ok st1) :
    ∃ st2, loadPlugins w st1 = Except.ok st2 ∧
      st2.files (clientFileOf w) = st1.files (clientFileOf w) ∧
      st2.files (serverFileOf w) = st1.files (serverFileOf w) := by
  rcases conditions_of_loadPlugins_ok w St.init st1 h with ⟨hi, hgc, hgs⟩
  rcases loadPlugins_ok_of_conditions w hi hgc hgs st1 with ⟨st2, h2⟩
  rcases loadPlugins_ok w St.init st1 h with ⟨hc1, hs1, _⟩
  rcases loadPlugins_ok w st1 st2 h2 with ⟨hc2, hs2, _⟩
  exact ⟨st2, h2, by rw [hc2, hc1], by rw [hs2, hs1]⟩

/-- C8 witness: rerunning on `hidWorld` from the first run's final state
reproduces both files. -/
theorem C8_witness :
    ∃ st2, loadPlugins hidWorld (finalSt (runLoadPlugins hidWorld)) = Except.ok st2 ∧
      st2.files (clientFileOf hidWorld) =
        (finalSt (runLoadPlugins hidWorld)).files (clientFileOf hidWorld) ∧
      st2.files (serverFileOf hidWorld) =
        (finalSt (runLoadPlugins hidWorld)).files (serverFileOf hidWorld) :=
  C8_idempotent hidWorld (finalSt (runLoadPlugins hidWorld)) rfl

/-- C9: when a run aborts after touching the server manifest file, the
client manifest file had already been completely written. -/
theorem C9_other_target_intact (w : World) (st : St)
    (h : runLoadPlugins w = Except.error st)
    (hs : st.files (serverFileOf w) ≠ none) :
    st.files (clientFileOf w) =
      some (importFileMessage ++ renderLines (clientManifest w)) := by
  rcases loadPlugins_error_cases w St.init st h with hc | hc
  · exact absurd hc hs
  · exact hc

/-- C9 witness: in `failWorld9` the server append fails after the server
file was reset, and the client file holds its complete manifest. -/
theorem C9_witness :
    runLoadPlugins failWorld9 = Except.error (finalSt (runLoadPlugins failWorld9)) ∧
      (finalSt (runLoadPlugins failWorld9)).files (serverFileOf failWorld9) ≠ none ∧
      (finalSt (runLoadPlugins failWorld9)).files (clientFileOf failWorld9) =
        some (importFileMessage ++ renderLines (clientManifest failWorld9)) := by
  have hne : (finalSt (runLoadPlugins failWorld9)).files (serverFileOf failWorld9) ≠ none := by
    intro hcontra
    rw [show (finalSt (runLoadPlugins failWorld9)).files (serverFileOf failWorld9) =
        some importFileMessage from rfl] at hcontra
    exact Option.noConfusion hcontra
  exact ⟨rfl, hne, C9_other_target_intact failWorld9 _ rfl hne⟩

/-- C10: every recorded install invocation names an eligible — neither
hidden nor disabled — plugin directory that carries a `package.json`,
whether the run completed or aborted. -/
theorem C10_no_install_for_excluded (w : World) (b p : String)
    (hmem : (b, p) ∈ (finalSt (runLoadPlugins w)).installed) :
    p ∈ eligibleDirs w b ∧ (startsWithDot p || w.disabledPlugins.contains p) = false ∧
      w.fsExists (b ++ p ++ "/package.json") = true := by
  rcases loadPlugins_installed w St.init (b, p) hmem with hin | ⟨b', _, hb1, hb2, hb3⟩
  · exact absurd hin (List.not_mem_nil _)
  · cases hb1
    refine ⟨hb2, ?_, hb3⟩
    rcases List.mem_filter.1 hb2 with ⟨_, hpred⟩
    rwa [Bool.not_eq_true'] at hpred

/-- C10 witness: the one install `instWorld10` records names the eligible
plugin `g` with its `package.json`. -/
theorem C10_witness :
    ((corePluginsPath instWorld10, "g") ∈ (finalSt (runLoadPlugins instWorld10)).installed) ∧
      ("g" ∈ eligibleDirs instWorld10 (corePluginsPath instWorld10) ∧
        (startsWithDot "g" || instWorld10.disabledPlugins.contains "g") = false ∧
        instWorld10.fsExists (corePluginsPath instWorld10 ++ "g" ++ "/package.json") = true) :=
  ⟨by decide, C10_no_install_for_excluded instWorld10 (corePluginsPath instWorld10) "g"
    (by decide)⟩

/-- Splitting distributes over a separator. -/
theorem segsAux_append_slash (y : List Char) :
    ∀ (x acc : List Char), segsAux acc (x ++ '/' :: y) = segsAux acc x ++ segsAux [] y := by
  intro x
  induction x with
  | nil =>
    intro acc
    show segsAux acc ('/' :: y) = segsAux acc [] ++ segsAux [] y
    rw [segsAux, segsAux, if_pos rfl]
    by_cases h : acc.isEmpty = true
    · rw [if_pos h, if_pos h, List.nil_append]
    · rw [if_neg h, if_neg h, List.cons_append]
      rfl
  | cons c x ih =>
    intro acc
    show segsAux acc (c :: (x ++ '/' :: y)) = segsAux acc (c :: x) ++ segsAux [] y
    rw [segsAux]
    conv_rhs => rw [segsAux]
    by_cases hc : c = '/'
    · rw [if_pos hc, if_pos hc]
      by_cases h : acc.isEmpty = true
      · rw [if_pos h, if_pos h, ih]
      · rw [if_neg h, if_neg h, ih, List.cons_append]
    · rw [if_neg hc, if_neg hc, ih]

/-- Splitting distributes over a separator. -/
theorem segs_append_slash (x y : List Char) : segs (x ++ '/' :: y) = segs x ++ segs y :=
  segsAux_append_slash y x []

/-- Splitting a separator-free chunk. -/
theorem segsAux_noslash :
    ∀ (x acc : List Char), '/' ∉ x →
      segsAux acc x = if (acc ++ x).isEmpty then [] else [acc ++ x] := by
  intro x
  induction x with
  | nil =>
    intro acc _
    rw [segsAux, List.append_nil]
  | cons c x ih =>
    intro acc h
    have hc : ¬c = '/' := fun hh => h (hh ▸ List.mem_cons_self ..)
    rw [segsAux, if_neg hc, ih (acc ++ [c]) (fun hm => h (List.mem_cons_of_mem _ hm)),
      List.append_assoc]
    rfl

/-- A non-empty separator-free chunk is one whole segment. -/
theorem segs_noslash {x : List Char} (h1 : x ≠ []) (h2 : '/' ∉ x) : segs x = [x] := by
  rw [segs, segsAux_noslash x [] h2, List.nil_append, if_neg]
  rw [List.isEmpty_iff]
  exact h1

/-- A list shares its full length with any extension of itself. -/
theorem commonPrefixLen_self_append :
    ∀ l m : List (List Char), commonPrefixLen l (l ++ m) = l.length := by
  intro l m
  induction l with
  | nil =>
    cases m with
    | nil => rfl
    | cons b bs => rfl
  | cons a as ih =>
    show commonPrefixLen (a :: as) (a :: (as ++ m)) = as.length + 1
    rw [commonPrefixLen, if_pos rfl, ih]
    omega

/-- `path.relative` from `a` to a path directly beneath `a` returns the
normalized remainder. -/
theorem pathRelative_under (a : String) (rest : List Char) :
    pathRelative a (String.mk (chars a ++ '/' :: rest)) = String.mk (joinSegs (segs rest)) := by
  show String.mk (joinSegs (List.replicate ((segs (chars a)).length -
      commonPrefixLen (segs (chars a)) (segs (chars a ++ '/' :: rest)))
      ['.', '.'] ++ (segs (chars a ++ '/' :: rest)).drop
        (commonPrefixLen (segs (chars a)) (segs (chars a ++ '/' :: rest))))) = _
  rw [segs_append_slash, commonPrefixLen_self_append, Nat.sub_self, List.drop_left]
  rfl

/-- Characters of a joined segment list come from the segments or are the
separator. -/
theorem mem_joinSegs {c : Char} :
    ∀ {l : List (List Char)}, c ∈ joinSegs l → c = '/' ∨ ∃ x ∈ l, c ∈ x := by
  intro l
  induction l with
  | nil =>
    intro h
    exact absurd h (List.not_mem_nil c)
  | cons x xs ih =>
    intro h
    cases xs with
    | nil =>
      exact Or.inr ⟨x, List.mem_cons_self .., h⟩
    | cons y ys =>
      rw [joinSegs] at h
      rcases List.mem_append.1 h with hx | hy
      · exact Or.inr ⟨x, List.mem_cons_self .., hx⟩
      · rcases List.mem_cons.1 hy with rfl | hy'
        · exact Or.inl rfl
        · rcases ih hy' with h' | ⟨z, hz, hcz⟩
          · exact Or.inl h'
          · exact Or.inr ⟨z, List.mem_cons_of_mem _ hz, hcz⟩

/-- Characters of a computed segment come from the split list. -/
theorem mem_segsAux {c : Char} :
    ∀ (cs acc x : List Char), x ∈ segsAux acc cs → c ∈ x → c ∈ acc ∨ c ∈ cs := by
  intro cs
  induction cs with
  | nil =>
    intro acc x hx hc
    rw [segsAux] at hx
    split at hx
    · exact absurd hx (List.not_mem_nil x)
    · rw [List.mem_singleton] at hx
      exact Or.inl (hx ▸ hc)
  | cons d ds ih =>
    intro acc x hx hc
    rw [segsAux] at hx
    by_cases hd : d = '/'
    · rw [if_pos hd] at hx
      split at hx
      · rcases ih [] x hx hc with h | h
        · exact absurd h (List.not_mem_nil c)
        · exact Or.inr (List.mem_cons_of_mem _ h)
      · rcases List.mem_cons.1 hx with rfl | hx'
        · exact Or.inl hc
        · rcases ih [] x hx' hc with h | h
          · exact absurd h (List.not_mem_nil c)
          · exact Or.inr (List.mem_cons_of_mem _ h)
    · rw [if_neg hd] at hx
      rcases ih (acc ++ [d]) x hx hc with h | h
      · rcases List.mem_append.1 h with h' | h'
        · exact Or.inl h'
        · rw [List.mem_singleton] at h'
          exact Or.inr (h' ▸ List.mem_cons_self ..)
      · exact Or.inr (List.mem_cons_of_mem _ h)

/-- Characters of any segment come from the split list. -/
theorem mem_of_mem_segs {c : Char} {cs x : List Char} (hx : x ∈ segs cs) (hc : c ∈ x) :
    c ∈ cs := by
  rcases mem_segsAux cs [] x hx hc with h | h
  · exact absurd h (List.not_mem_nil c)
  · exact h

/-- `getImportPath` on a path directly beneath the root, when the remainder
is backslash-free, returns slash + the normalized remainder. -/
theorem getImportPath_concat (a : String) (rest : List Char) (hnb : '\\' ∉ rest) :
    getImportPath a (String.mk (chars a ++ '/' :: rest)) =
      String.mk ('/' :: joinSegs (segs rest)) := by
  rw [getImportPath, pathRelative_under]
  apply String.ext
  show (chars ("/" ++ String.mk (joinSegs (segs rest)))).map
      (fun c => if c = '\\' then '/' else c) = _
  have hd : chars ("/" ++ String.mk (joinSegs (segs rest))) = '/' :: joinSegs (segs rest) := by
    show ("/" ++ String.mk (joinSegs (segs rest))).data = _
    rw [String.data_append]
    rfl
  rw [hd, List.map_cons, if_neg (by decide)]
  congr 1
  have : ∀ c ∈ joinSegs (segs rest), ¬c = '\\' := by
    intro c hcj hcb
    rcases mem_joinSegs hcj with h | ⟨x, hx, hcx⟩
    · exact absurd (hcb ▸ h) (by decide)
    · exact hnb (hcb ▸ mem_of_mem_segs hx hcx)
  calc (joinSegs (segs rest)).map (fun c => if c = '\\' then '/' else c)
      = (joinSegs (segs rest)).map id := List.map_congr_left (fun c hc => if_neg (this c hc))
    _ = joinSegs (segs rest) := List.map_id _

/-- Every list is a Boolean prefix of itself. -/
theorem isPrefixOf_self : ∀ l : List Char, l.isPrefixOf l = true := by
  intro l
  induction l with
  | nil => rfl
  | cons c cs ih => simp [List.isPrefixOf, ih]

/-- A Boolean prefix of a non-empty list is a substring of it. -/
theorem hasSub_of_isPrefixOf {pat v : List Char} (hv : v ≠ [])
    (h : pat.isPrefixOf v = true) : hasSub pat v = true := by
  cases v with
  | nil => exact absurd rfl hv
  | cons c cs =>
    rw [hasSub, h]
    rfl

/-- A pattern whose head character occurs nowhere else in it cannot start
strictly before the end-aligned occurrence in `v ++ pat` unless it occurs
inside `v`. -/
theorem not_isPrefixOf_append_self {c₀ : Char} {ptail : List Char} (hc : c₀ ∉ ptail)
    {v : List Char} (hv : v ≠ []) (hsub : hasSub (c₀ :: ptail) v = false) :
    (c₀ :: ptail).isPrefixOf (v ++ (c₀ :: ptail)) = false := by
  by_contra hcon
  rw [Bool.not_eq_false, List.isPrefixOf_iff_prefix] at hcon
  by_cases hlen : (c₀ :: ptail).length ≤ v.length
  · have htake : c₀ :: ptail = (v ++ (c₀ :: ptail)).take (c₀ :: ptail).length :=
      List.prefix_iff_eq_take.1 hcon
    rw [List.take_append_of_le_length hlen] at htake
    have hvpre : (c₀ :: ptail) <+: v := htake ▸ List.take_prefix _ v
    rw [← List.isPrefixOf_iff_prefix] at hvpre
    rw [hasSub_of_isPrefixOf hv hvpre] at hsub
    exact Bool.noConfusion hsub
  · have hvpos : 0 < v.length := List.length_pos.2 hv
    have hvlt : v.length < (c₀ :: ptail).length := Nat.lt_of_not_le hlen
    have hlen2 : v.length < (v ++ (c₀ :: ptail)).length := by
      rw [List.length_append]
      omega
    have hidx : (v ++ (c₀ :: ptail))[v.length] = (c₀ :: ptail)[v.length] :=
      (hcon.getElem hvlt).symm
    rw [List.getElem_append_right (Nat.le_refl v.length)] at hidx
    rcases Nat.exists_eq_add_of_lt hvpos with ⟨j, hj⟩
    have hj' : v.length = j + 1 := by omega
    have hjlt : j < ptail.length := by
      rw [List.length_cons] at hvlt
      omega
    have hfin : c₀ = ptail[j] := by
      simp only [hj', List.getElem_cons_succ, Nat.sub_self, List.getElem_cons_zero] at hidx
      exact hidx
    apply hc
    rw [hfin]
    exact List.getElem_mem hjlt

/-- When the pattern occurs nowhere inside `xs`, JS `replace` removes
exactly the end-aligned occurrence. -/
theorem jsReplaceFirstAux_append_end {c₀ : Char} {ptail rep : List Char} (hc : c₀ ∉ ptail) :
    ∀ xs : List Char, hasSub (c₀ :: ptail) xs = false →
      jsReplaceFirstAux (c₀ :: ptail) rep (xs ++ (c₀ :: ptail)) = xs ++ rep := by
  intro xs
  induction xs with
  | nil =>
    intro _
    show jsReplaceFirstAux (c₀ :: ptail) rep (c₀ :: ptail) = rep
    rw [jsReplaceFirstAux, if_pos (isPrefixOf_self _), List.drop_length, List.append_nil]
  | cons x xs' ih =>
    intro hsub
    rw [hasSub, Bool.or_eq_false_iff] at hsub
    have hguard : (c₀ :: ptail).isPrefixOf (x :: (xs' ++ (c₀ :: ptail))) = false :=
      not_isPrefixOf_append_self hc (List.cons_ne_nil x xs') (by
        rw [hasSub, Bool.or_eq_false_iff]
        exact hsub)
    show jsReplaceFirstAux (c₀ :: ptail) rep (x :: (xs' ++ (c₀ :: ptail))) = x :: (xs' ++ rep)
    rw [jsReplaceFirstAux, hguard]
    simp only [Bool.false_eq_true, if_false]
    rw [ih hsub.2]

/-- Stripping the trailing `/index.js` via JS `replace` when `/index.js`
occurs nowhere earlier in the path. -/
theorem jsReplaceFirst_strip (xs : List Char)
    (hsub : hasSub ('/' :: chars "index.js") xs = false) :
    jsReplaceFirst "/index.js" "" (String.mk (xs ++ '/' :: chars "index.js")) =
      String.mk xs := by
  apply String.ext
  show jsReplaceFirstAux (chars "/index.js") (chars "") (xs ++ '/' :: chars "index.js") = xs
  rw [show chars "/index.js" = '/' :: chars "index.js" from rfl,
    show chars "" = ([] : List Char) from rfl,
    jsReplaceFirstAux_append_end (by decide) xs hsub, List.append_nil]

/-- Splitting undoes joining when every segment is non-empty and
separator-free. -/
theorem segs_joinSegs_clean :
    ∀ l : List (List Char), (∀ x ∈ l, x ≠ [] ∧ '/' ∉ x) → segs (joinSegs l) = l := by
  intro l
  induction l with
  | nil =>
    intro _
    rfl
  | cons x xs ih =>
    intro h
    cases xs with
    | nil =>
      exact segs_noslash (h x (List.mem_cons_self ..)).1 (h x (List.mem_cons_self ..)).2
    | cons y ys =>
      rw [joinSegs, segs_append_slash,
        segs_noslash (h x (List.mem_cons_self ..)).1 (h x (List.mem_cons_self ..)).2,
        ih (fun z hz => h z (List.mem_cons_of_mem _ hz))]
      rfl

/-- `getImportPath` from the root `a` to the joined segments directly
beneath it. -/
theorem getImportPath_joinSegs (a : String) (l : List (List Char))
    (hl : ∀ x ∈ l, x ≠ [] ∧ '/' ∉ x) (hnb : ∀ x ∈ l, '\\' ∉ x) :
    getImportPath a (String.mk (chars a ++ '/' :: joinSegs l)) =
      String.mk ('/' :: joinSegs l) := by
  have hnball : '\\' ∉ joinSegs l := by
    intro hmem
    rcases mem_joinSegs hmem with h | ⟨x, hx, hcx⟩
    · exact absurd h (by decide)
    · exact hnb x hx hcx
  rw [getImportPath_concat a _ hnball, segs_joinSegs_clean l hl]

/-- `dropWhile` skips past a wholly satisfying chunk. -/
theorem dropWhile_append_of_all {p : Char → Bool} :
    ∀ (a b : List Char), (∀ c ∈ a, p c = true) →
      List.dropWhile p (a ++ b) = List.dropWhile p b := by
  intro a
  induction a with
  | nil =>
    intro b _
    rfl
  | cons c cs ih =>
    intro b h
    rw [List.cons_append, List.dropWhile_cons, h c (List.mem_cons_self ..)]
    simp only [if_true]
    exact ih b (fun d hd => h d (List.mem_cons_of_mem _ hd))

/-- Stripping the last component of a path whose final segment is
separator-free. -/
theorem dropLastComponent_append (xs ys : List Char) (h : '/' ∉ ys) :
    dropLastComponent (xs ++ '/' :: ys) = xs := by
  rw [dropLastComponent, List.reverse_append, List.reverse_cons, List.append_assoc]
  rw [dropWhile_append_of_all ys.reverse (['/'] ++ xs.reverse) (by
    intro c hcr
    rw [List.mem_reverse] at hcr
    have : ¬c = '/' := fun hh => h (hh ▸ hcr)
    simp [this])]
  rw [show (['/'] ++ xs.reverse) = '/' :: xs.reverse from rfl, List.dropWhile_cons]
  rw [show (!('/' == '/')) = false from rfl]
  simp only [Bool.false_eq_true, if_false, List.drop_succ_cons, List.drop_zero,
    List.reverse_reverse]

/-- Joining with one extra trailing segment. -/
theorem joinSegs_append_single (x : List Char) :
    ∀ l : List (List Char), l ≠ [] → joinSegs (l ++ [x]) = joinSegs l ++ '/' :: x := by
  intro l
  induction l with
  | nil =>
    intro h
    exact absurd rfl h
  | cons a as ih =>
    intro _
    cases as with
    | nil => rfl
    | cons b bs =>
      show joinSegs (a :: ((b :: bs) ++ [x])) = (a ++ '/' :: joinSegs (b :: bs)) ++ '/' :: x
      rw [show (b :: bs) ++ [x] = b :: (bs ++ [x]) from rfl]
      rw [joinSegs, show b :: (bs ++ [x]) = (b :: bs) ++ [x] from rfl, ih (List.cons_ne_nil b bs),
        List.append_assoc]
      rfl

/-- Cleanliness of the plugin path segments. -/
theorem pluginSegs_clean {tn p last : String} (htn1 : chars tn ≠ []) (htn2 : '/' ∉ chars tn)
    (hp1 : chars p ≠ []) (hp2 : '/' ∉ chars p) (hl1 : chars last ≠ [])
    (hl2 : '/' ∉ chars last) :
    ∀ x ∈ pluginSegs tn p last, x ≠ [] ∧ '/' ∉ x := by
  intro x hx
  simp only [pluginSegs, List.mem_cons, List.not_mem_nil, or_false] at hx
  rcases hx with rfl | rfl | rfl | rfl | rfl
  · exact ⟨by decide, by decide⟩
  · exact ⟨by decide, by decide⟩
  · exact ⟨htn1, htn2⟩
  · exact ⟨hp1, hp2⟩
  · exact ⟨hl1, hl2⟩

/-- Backslash-freeness of the plugin path segments. -/
theorem pluginSegs_noBackslash {tn p last : String} (htn : '\\' ∉ chars tn)
    (hp : '\\' ∉ chars p) (hl : '\\' ∉ chars last) :
    ∀ x ∈ pluginSegs tn p last, '\\' ∉ x := by
  intro x hx
  simp only [pluginSegs, List.mem_cons, List.not_mem_nil, or_false] at hx
  rcases hx with rfl | rfl | rfl | rfl | rfl
  · decide
  · decide
  · exact htn
  · exact hp
  · exact hl

/-- Evaluating the code's client entry-point path computation. -/
theorem clientEntryPath_eval (a tn p : String)
    (htn1 : chars tn ≠ []) (htn2 : '/' ∉ chars tn) (htn3 : '\\' ∉ chars tn)
    (hp1 : chars p ≠ []) (hp2 : '/' ∉ chars p) (hp3 : '\\' ∉ chars p)
    (hsub : hasSub ('/' :: chars "index.js")
      (chars a ++ '/' :: joinSegs (pluginSegs tn p "client")) = false) :
    getImportPath a (jsReplaceFirst "/index.js" ""
        (a ++ "/imports/plugins/" ++ (tn ++ "/") ++ p ++ "/client/index.js")) =
      "/imports/plugins/" ++ tn ++ "/" ++ p ++ "/client" := by
  have harg : a ++ "/imports/plugins/" ++ (tn ++ "/") ++ p ++ "/client/index.js" =
      String.mk ((chars a ++ '/' :: joinSegs (pluginSegs tn p "client")) ++
        '/' :: chars "index.js") := by
    apply String.ext
    show (a ++ "/imports/plugins/" ++ (tn ++ "/") ++ p ++ "/client/index.js").data =
      (chars a ++ '/' :: joinSegs (pluginSegs tn p "client")) ++ '/' :: chars "index.js"
    simp only [String.data_append, pluginSegs, joinSegs, chars, List.append_assoc,
      List.cons_append]
    rfl
  rw [harg, jsReplaceFirst_strip _ hsub,
    getImportPath_joinSegs a _
      (pluginSegs_clean htn1 htn2 hp1 hp2 (by decide) (by decide))
      (pluginSegs_noBackslash htn3 hp3 (by decide))]
  apply String.ext
  show '/' :: joinSegs (pluginSegs tn p "client") =
    ("/imports/plugins/" ++ tn ++ "/" ++ p ++ "/client").data
  simp only [String.data_append, pluginSegs, joinSegs, chars, List.append_assoc,
    List.cons_append]
  rfl

/-- Evaluating the code's server entry-point path computation. -/
theorem serverEntryPath_eval (a tn p : String)
    (htn1 : chars tn ≠ []) (htn2 : '/' ∉ chars tn) (htn3 : '\\' ∉ chars tn)
    (hp1 : chars p ≠ []) (hp2 : '/' ∉ chars p) (hp3 : '\\' ∉ chars p)
    (hsub : hasSub ('/' :: chars "index.js")
      (chars a ++ '/' :: joinSegs (pluginSegs tn p "server")) = false) :
    getImportPath a (jsReplaceFirst "/index.js" ""
        (a ++ "/imports/plugins/" ++ (tn ++ "/") ++ p ++ "/server/index.js")) =
      "/imports/plugins/" ++ tn ++ "/" ++ p ++ "/server" := by
  have harg : a ++ "/imports/plugins/" ++ (tn ++ "/") ++ p ++ "/server/index.js" =
      String.mk ((chars a ++ '/' :: joinSegs (pluginSegs tn p "server")) ++
        '/' :: chars "index.js") := by
    apply String.ext
    show (a ++ "/imports/plugins/" ++ (tn ++ "/") ++ p ++ "/server/index.js").data =
      (chars a ++ '/' :: joinSegs (pluginSegs tn p "server")) ++ '/' :: chars "index.js"
    simp only [String.data_append, pluginSegs, joinSegs, chars, List.append_assoc,
      List.cons_append]
    rfl
  rw [harg, jsReplaceFirst_strip _ hsub,
    getImportPath_joinSegs a _
      (pluginSegs_clean htn1 htn2 hp1 hp2 (by decide) (by decide))
      (pluginSegs_noBackslash htn3 hp3 (by decide))]
  apply String.ext
  show '/' :: joinSegs (pluginSegs tn p "server") =
    ("/imports/plugins/" ++ tn ++ "/" ++ p ++ "/server").data
  simp only [String.data_append, pluginSegs, joinSegs, chars, List.append_assoc,
    List.cons_append]
  rfl

/-- Evaluating the code's registration-file path computation. -/
theorem registryPath_eval (a tn p : String)
    (htn1 : chars tn ≠ []) (htn2 : '/' ∉ chars tn) (htn3 : '\\' ∉ chars tn)
    (hp1 : chars p ≠ []) (hp2 : '/' ∉ chars p) (hp3 : '\\' ∉ chars p) :
    getImportPath a (a ++ "/imports/plugins/" ++ (tn ++ "/") ++ p ++ "/register.js") =
      "/imports/plugins/" ++ tn ++ "/" ++ p ++ "/register.js" := by
  have harg : a ++ "/imports/plugins/" ++ (tn ++ "/") ++ p ++ "/register.js" =
      String.mk (chars a ++ '/' :: joinSegs (pluginSegs tn p "register.js")) := by
    apply String.ext
    show (a ++ "/imports/plugins/" ++ (tn ++ "/") ++ p ++ "/register.js").data =
      chars a ++ '/' :: joinSegs (pluginSegs tn p "register.js")
    simp only [String.data_append, pluginSegs, joinSegs, chars, List.append_assoc,
      List.cons_append]
    rfl
  rw [harg,
    getImportPath_joinSegs a _
      (pluginSegs_clean htn1 htn2 hp1 hp2 (by decide) (by decide))
      (pluginSegs_noBackslash htn3 hp3 (by decide))]
  apply String.ext
  show '/' :: joinSegs (pluginSegs tn p "register.js") =
    ("/imports/plugins/" ++ tn ++ "/" ++ p ++ "/register.js").data
  simp only [String.data_append, pluginSegs, joinSegs, chars, List.append_assoc,
    List.cons_append]
  rfl

/-- Cleanliness of the six segments of a full entry-point artifact path. -/
theorem pluginSegs_index_clean {tn p last : String} (htn1 : chars tn ≠ [])
    (htn2 : '/' ∉ chars tn) (hp1 : chars p ≠ []) (hp2 : '/' ∉ chars p)
    (hl1 : chars last ≠ []) (hl2 : '/' ∉ chars last) :
    ∀ x ∈ pluginSegs tn p last ++ [chars "index.js"], x ≠ [] ∧ '/' ∉ x := by
  intro x hx
  rcases List.mem_append.1 hx with h | h
  · exact pluginSegs_clean htn1 htn2 hp1 hp2 hl1 hl2 x h
  · rw [List.mem_singleton] at h
    subst h
    exact ⟨by decide, by decide⟩

/-- Backslash-freeness of the six segments of a full entry-point artifact
path. -/
theorem pluginSegs_index_noBackslash {tn p last : String} (htn : '\\' ∉ chars tn)
    (hp : '\\' ∉ chars p) (hl : '\\' ∉ chars last) :
    ∀ x ∈ pluginSegs tn p last ++ [chars "index.js"], '\\' ∉ x := by
  intro x hx
  rcases List.mem_append.1 hx with h | h
  · exact pluginSegs_noBackslash htn hp hl x h
  · rw [List.mem_singleton] at h
    subst h
    decide

/-- Evaluating the spec's formula on a client entry-point artifact. -/
theorem specEntryClient_eval (a tn p : String)
    (htn1 : chars tn ≠ []) (htn2 : '/' ∉ chars tn) (htn3 : '\\' ∉ chars tn)
    (hp1 : chars p ≠ []) (hp2 : '/' ∉ chars p) (hp3 : '\\' ∉ chars p) :
    specEntryImportPath a (a ++ "/imports/plugins/" ++ (tn ++ "/") ++ p ++
        "/client/index.js") =
      "/imports/plugins/" ++ tn ++ "/" ++ p ++ "/client" := by
  have harg : a ++ "/imports/plugins/" ++ (tn ++ "/") ++ p ++ "/client/index.js" =
      String.mk (chars a ++ '/' :: joinSegs (pluginSegs tn p "client" ++
        [chars "index.js"])) := by
    apply String.ext
    show (a ++ "/imports/plugins/" ++ (tn ++ "/") ++ p ++ "/client/index.js").data =
      chars a ++ '/' :: joinSegs (pluginSegs tn p "client" ++ [chars "index.js"])
    simp only [String.data_append, pluginSegs, List.cons_append, List.nil_append, joinSegs,
      chars, List.append_assoc]
  show String.mk (dropLastComponent (chars (getImportPath a
    (a ++ "/imports/plugins/" ++ (tn ++ "/") ++ p ++ "/client/index.js")))) = _
  rw [harg,
    getImportPath_joinSegs a _
      (pluginSegs_index_clean htn1 htn2 hp1 hp2 (by decide) (by decide))
      (pluginSegs_index_noBackslash htn3 hp3 (by decide))]
  rw [show chars (String.mk ('/' :: joinSegs (pluginSegs tn p "client" ++
      [chars "index.js"]))) =
      '/' :: joinSegs (pluginSegs tn p "client" ++ [chars "index.js"]) from rfl]
  rw [joinSegs_append_single (chars "index.js") (pluginSegs tn p "client")
    (by simp [pluginSegs])]
  rw [show '/' :: (joinSegs (pluginSegs tn p "client") ++ '/' :: chars "index.js") =
    ('/' :: joinSegs (pluginSegs tn p "client")) ++ '/' :: chars "index.js" from rfl]
  rw [dropLastComponent_append _ _ (by decide)]
  apply String.ext
  show '/' :: joinSegs (pluginSegs tn p "client") =
    ("/imports/plugins/" ++ tn ++ "/" ++ p ++ "/client").data
  simp only [String.data_append, pluginSegs, joinSegs, chars, List.append_assoc,
    List.cons_append]
  rfl

/-- Evaluating the spec's formula on a server entry-point artifact. -/
theorem specEntryServer_eval (a tn p : String)
    (htn1 : chars tn ≠ []) (htn2 : '/' ∉ chars tn) (htn3 : '\\' ∉ chars tn)
    (hp1 : chars p ≠ []) (hp2 : '/' ∉ chars p) (hp3 : '\\' ∉ chars p) :
    specEntryImportPath a (a ++ "/imports/plugins/" ++ (tn ++ "/") ++ p ++
        "/server/index.js") =
      "/imports/plugins/" ++ tn ++ "/" ++ p ++ "/server" := by
  have harg : a ++ "/imports/plugins/" ++ (tn ++ "/") ++ p ++ "/server/index.js" =
      String.mk (chars a ++ '/' :: joinSegs (pluginSegs tn p "server" ++
        [chars "index.js"])) := by
    apply String.ext
    show (a ++ "/imports/plugins/" ++ (tn ++ "/") ++ p ++ "/server/index.js").data =
      chars a ++ '/' :: joinSegs (pluginSegs tn p "server" ++ [chars "index.js"])
    simp only [String.data_append, pluginSegs, List.cons_append, List.nil_append, joinSegs,
      chars, List.append_assoc]
  show String.mk (dropLastComponent (chars (getImportPath a
    (a ++ "/imports/plugins/" ++ (tn ++ "/") ++ p ++ "/server/index.js")))) = _
  rw [harg,
    getImportPath_joinSegs a _
      (pluginSegs_index_clean htn1 htn2 hp1 hp2 (by decide) (by decide))
      (pluginSegs_index_noBackslash htn3 hp3 (by decide))]
  rw [show chars (String.mk ('/' :: joinSegs (pluginSegs tn p "server" ++
      [chars "index.js"]))) =
      '/' :: joinSegs (pluginSegs tn p "server" ++ [chars "index.js"]) from rfl]
  rw [joinSegs_append_single (chars "index.js") (pluginSegs tn p "server")
    (by simp [pluginSegs])]
  rw [show '/' :: (joinSegs (pluginSegs tn p "server") ++ '/' :: chars "index.js") =
    ('/' :: joinSegs (pluginSegs tn p "server")) ++ '/' :: chars "index.js" from rfl]
  rw [dropLastComponent_append _ _ (by decide)]
  apply String.ext
  show '/' :: joinSegs (pluginSegs tn p "server") =
    ("/imports/plugins/" ++ tn ++ "/" ++ p ++ "/server").data
  simp only [String.data_append, pluginSegs, joinSegs, chars, List.append_assoc,
    List.cons_append]
  rfl

/-- The six path-normalization equations for one plugin of one tier, stated
over the tier's directory name. -/
theorem pathNormalization_generic (w : World) (tn p : String)
    (htn1 : chars tn ≠ []) (htn2 : '/' ∉ chars tn) (htn3 : '\\' ∉ chars tn)
    (hp1 : chars p ≠ []) (hp2 : '/' ∉ chars p) (hp3 : '\\' ∉ chars p)
    (hsubC : hasSub ('/' :: chars "index.js")
      (chars (appRootOf w) ++ '/' :: joinSegs (pluginSegs tn p "client")) = false)
    (hsubS : hasSub ('/' :: chars "index.js")
      (chars (appRootOf w) ++ '/' :: joinSegs (pluginSegs tn p "server")) = false) :
    clientPathOf w (appRootOf w ++ "/imports/plugins/" ++ (tn ++ "/")) p =
        "/imports/plugins/" ++ tn ++ "/" ++ p ++ "/client" ∧
      clientPathOf w (appRootOf w ++ "/imports/plugins/" ++ (tn ++ "/")) p =
        specEntryImportPath (appRootOf w)
          (appRootOf w ++ "/imports/plugins/" ++ (tn ++ "/") ++ p ++ "/client/index.js") ∧
      serverPathOf w (appRootOf w ++ "/imports/plugins/" ++ (tn ++ "/")) p =
        "/imports/plugins/" ++ tn ++ "/" ++ p ++ "/server" ∧
      serverPathOf w (appRootOf w ++ "/imports/plugins/" ++ (tn ++ "/")) p =
        specEntryImportPath (appRootOf w)
          (appRootOf w ++ "/imports/plugins/" ++ (tn ++ "/") ++ p ++ "/server/index.js") ∧
      registryPathOf w (appRootOf w ++ "/imports/plugins/" ++ (tn ++ "/")) p =
        "/imports/plugins/" ++ tn ++ "/" ++ p ++ "/register.js" ∧
      registryPathOf w (appRootOf w ++ "/imports/plugins/" ++ (tn ++ "/")) p =
        specFileImportPath (appRootOf w)
          (appRootOf w ++ "/imports/plugins/" ++ (tn ++ "/") ++ p ++ "/register.js") := by
  have e1 := clientEntryPath_eval (appRootOf w) tn p htn1 htn2 htn3 hp1 hp2 hp3 hsubC
  have e2 := serverEntryPath_eval (appRootOf w) tn p htn1 htn2 htn3 hp1 hp2 hp3 hsubS
  have e3 := registryPath_eval (appRootOf w) tn p htn1 htn2 htn3 hp1 hp2 hp3
  have s1 := specEntryClient_eval (appRootOf w) tn p htn1 htn2 htn3 hp1 hp2 hp3
  have s2 := specEntryServer_eval (appRootOf w) tn p htn1 htn2 htn3 hp1 hp2 hp3
  exact ⟨e1, e1.trans s1.symm, e2, e2.trans s2.symm, e3, rfl⟩

/-- C4: for every eligible plugin `p` of tier `t` whose name is non-empty
and free of separators and backslashes, and whose path prefix does not
contain `/index.js`, the computed client and server import paths equal the
artifact's path relative to the application root, prefixed with `'/'`, in
forward slashes, with the trailing entry filename stripped (the spec's
formula, e.g. `/imports/plugins/<tier>/<p>/client`); the registration path
is computed the same way WITHOUT stripping. -/
theorem C4_path_normalization (w : World) (t : Tier) (p : String)
    (hp1 : chars p ≠ []) (hp2 : '/' ∉ chars p) (hp3 : '\\' ∉ chars p)
    (hsubC : hasSub ('/' :: chars "index.js")
      (chars (appRootOf w) ++ '/' :: joinSegs (pluginSegs t.dirName p "client")) = false)
    (hsubS : hasSub ('/' :: chars "index.js")
      (chars (appRootOf w) ++ '/' :: joinSegs (pluginSegs t.dirName p "server")) = false) :
    clientPathOf w (tierRoot w t) p =
        "/imports/plugins/" ++ t.dirName ++ "/" ++ p ++ "/client" ∧
      clientPathOf w (tierRoot w t) p =
        specEntryImportPath (appRootOf w) (tierRoot w t ++ p ++ "/client/index.js") ∧
      serverPathOf w (tierRoot w t) p =
        "/imports/plugins/" ++ t.dirName ++ "/" ++ p ++ "/server" ∧
      serverPathOf w (tierRoot w t) p =
        specEntryImportPath (appRootOf w) (tierRoot w t ++ p ++ "/server/index.js") ∧
      registryPathOf w (tierRoot w t) p =
        "/imports/plugins/" ++ t.dirName ++ "/" ++ p ++ "/register.js" ∧
      registryPathOf w (tierRoot w t) p =
        specFileImportPath (appRootOf w) (tierRoot w t ++ p ++ "/register.js") := by
  cases t with
  | core =>
    exact pathNormalization_generic w "core" p (by decide) (by decide) (by decide)
      hp1 hp2 hp3 hsubC hsubS
  | included =>
    exact pathNormalization_generic w "included" p (by decide) (by decide) (by decide)
      hp1 hp2 hp3 hsubC hsubS
  | custom =>
    exact pathNormalization_generic w "custom" p (by decide) (by decide) (by decide)
      hp1 hp2 hp3 hsubC hsubS

/-- C4 witness: the core plugin `foo` under the root `/app`. -/
theorem C4_witness :
    (chars "foo" ≠ [] ∧ '/' ∉ chars "foo" ∧ '\\' ∉ chars "foo") ∧
      hasSub ('/' :: chars "index.js") (chars (appRootOf emptyWorld) ++ '/' ::
        joinSegs (pluginSegs Tier.core.dirName "foo" "client")) = false ∧
      hasSub ('/' :: chars "index.js") (chars (appRootOf emptyWorld) ++ '/' ::
        joinSegs (pluginSegs Tier.core.dirName "foo" "server")) = false ∧
      (clientPathOf emptyWorld (tierRoot emptyWorld Tier.core) "foo" =
          "/imports/plugins/" ++ Tier.core.dirName ++ "/" ++ "foo" ++ "/client" ∧
        clientPathOf emptyWorld (tierRoot emptyWorld Tier.core) "foo" =
          specEntryImportPath (appRootOf emptyWorld)
            (tierRoot emptyWorld Tier.core ++ "foo" ++ "/client/index.js") ∧
        serverPathOf emptyWorld (tierRoot emptyWorld Tier.core) "foo" =
          "/imports/plugins/" ++ Tier.core.dirName ++ "/" ++ "foo" ++ "/server" ∧
        serverPathOf emptyWorld (tierRoot emptyWorld Tier.core) "foo" =
          specEntryImportPath (appRootOf emptyWorld)
            (tierRoot emptyWorld Tier.core ++ "foo" ++ "/server/index.js") ∧
        registryPathOf emptyWorld (tierRoot emptyWorld Tier.core) "foo" =
          "/imports/plugins/" ++ Tier.core.dirName ++ "/" ++ "foo" ++ "/register.js" ∧
        registryPathOf emptyWorld (tierRoot emptyWorld Tier.core) "foo" =
          specFileImportPath (appRootOf emptyWorld)
            (tierRoot emptyWorld Tier.core ++ "foo" ++ "/register.js")) :=
  ⟨⟨by decide, by decide, by decide⟩, by decide, by decide,
    C4_path_normalization emptyWorld Tier.core "foo" (by decide) (by decide) (by decide)
      (by decide) (by decide)⟩

end Reaction
